import Mathlib

/-!
Verification of the document-conversion pipeline of the Trelent take-home
repository (`web/src/server/pipeline.ts`, `worker.ts`, `storage.ts`,
`run-store.ts`) against its natural-language specification.

The TypeScript source is shallowly embedded: pure helpers become Lean
functions, the per-run orchestration loop becomes a fold over the discovered
file list threading explicit state, and every interaction with the outside
world (HTTP providers, the Markdown renderer library, the file system) is
passed in as an explicit oracle argument so that the embedded control flow is
exactly the control flow of the source.  String operations are implemented on
`List Char` by structural recursion so that all definitions evaluate inside
the kernel.
-/

namespace Conv

/-! ## String primitives (structurally recursive `List Char` versions of the
JavaScript string operations the source uses) -/

/-- Replace every occurrence of the character `c` by the character list
`rep` (JavaScript `replaceAll` with a one-character pattern). -/
def replaceChar (c : Char) (rep : List Char) : List Char → List Char
  | [] => []
  | x :: xs =>
    if x = c then rep ++ replaceChar c rep xs else x :: replaceChar c rep xs

/-- `escapeHtml` from `pipeline.ts`: chained `replaceAll` calls, applied in
the source's order (`&`, `<`, `>`, `"`, `'`). -/
def escapeHtml (text : String) : String :=
  String.mk (replaceChar '\x27' "&#39;".data
    (replaceChar '"' "&quot;".data
      (replaceChar '>' "&gt;".data
        (replaceChar '<' "&lt;".data
          (replaceChar '&' "&amp;".data text.data)))))

/-- Strip leading and trailing whitespace (JavaScript `String.trim`). -/
def trimChars (cs : List Char) : List Char :=
  ((cs.dropWhile Char.isWhitespace).reverse.dropWhile Char.isWhitespace).reverse

/-- `s.trim()` as a `String` operation. -/
def strTrim (s : String) : String :=
  String.mk (trimChars s.data)

/-- Index of the first position at which `needle` occurs in the haystack,
or `none`. -/
def findSub (needle : List Char) : List Char → Option Nat
  | [] => if needle = [] then some 0 else none
  | c :: rest =>
    if needle.isPrefixOf (c :: rest) then some 0
    else (findSub needle rest).map (· + 1)

/-- Whether `needle` occurs somewhere inside `hay`. -/
def containsSub (hay needle : List Char) : Bool :=
  (findSub needle hay).isSome

/-- `msg.includes(sub)` on strings, used by the critical-failure check in
`runPipeline`. -/
def strIncludes (msg sub : String) : Bool :=
  containsSub msg.data sub.data

/-- `s.startsWith(pre)` on strings. -/
def strStartsWith (s pre : String) : Bool :=
  pre.data.isPrefixOf s.data

/-- Split a character list on a separator character (JavaScript
`String.split` / Node path splitting with a one-character separator):
`splitChar '/' "a//b"` is `["a", "", "b"]` and `splitChar '/' ""` is
`[""]`. -/
def splitChar (sep : Char) : List Char → List (List Char)
  | [] => [[]]
  | c :: rest =>
    if c = sep then [] :: splitChar sep rest
    else
      match splitChar sep rest with
      | [] => [[c]]
      | g :: gs => (c :: g) :: gs

/-- Join character lists with a separator character (inverse of
`splitChar`; JavaScript `Array.join`). -/
def joinChar (sep : Char) : List (List Char) → List Char
  | [] => []
  | [x] => x
  | x :: xs => x ++ sep :: joinChar sep xs

/-- Split a string on `/`. -/
def pathSplit (s : String) : List String :=
  (splitChar '/' s.data).map String.mk

/-- Join path segments with `/`. -/
def strJoin (segs : List String) : String :=
  String.mk (joinChar '/' (segs.map String.data))

/-- Decimal digits of a natural number (auxiliary, fuel-driven). -/
def natToCharsAux : Nat → Nat → List Char
  | 0, _ => []
  | fuel + 1, n =>
    if n < 10 then [Char.ofNat (48 + n)]
    else natToCharsAux fuel (n / 10) ++ [Char.ofNat (48 + n % 10)]

/-- Decimal rendering of a natural number (JavaScript number-to-string for
the small counters the source interpolates). -/
def natToString (n : Nat) : String :=
  String.mk (natToCharsAux (n + 1) n)

/-- Association-list lookup keyed by strings (the `Map.get` of the source's
`Map<string, _>` values). -/
def alookup {β : Type} (k : String) : List (String × β) → Option β
  | [] => none
  | (k', v) :: rest => if k' = k then some v else alookup k rest

/-- Case-lowering of a character list (JavaScript `toLowerCase` on the ASCII
inputs the source compares). -/
def lowerList (cs : List Char) : List Char :=
  cs.map Char.toLower

/-- Scan for the first full match of the regex shape `<TAG[^>]*>(...)</TAG>`
with a lazy group (case-insensitive), as used by `normalizeHtmlFragment`:
at the first `<TAG` occurrence from which a `>` and a subsequent `</TAG>`
can be found, return the raw captured group between them. -/
def tagMatchAux (openTag closeTag : List Char) : List Char → Option (List Char)
  | [] => none
  | c :: rest =>
    let here : Option (List Char) :=
      if openTag.isPrefixOf (lowerList (c :: rest)) then
        let afterOpen := (c :: rest).drop openTag.length
        match findSub ['>'] afterOpen with
        | none => none
        | some j =>
          let afterGt := afterOpen.drop (j + 1)
          match findSub closeTag (lowerList afterGt) with
          | none => none
          | some k => some (afterGt.take k)
      else none
    match here with
    | some g => some g
    | none => tagMatchAux openTag closeTag rest

/-- `normalizeHtmlFragment` from `pipeline.ts`: trim, then unwrap a
`<body>...</body>` or `<html>...</html>` wrapper if one is present (the
JavaScript falls through when the captured group is the empty string, since
an empty string is falsy there). -/
def normalizeHtmlFragment (input : String) : String :=
  let trimmed := strTrim input
  if trimmed = "" then ""
  else
    match tagMatchAux "<body".data "</body>".data trimmed.data with
    | some g =>
      if g ≠ [] then String.mk (trimChars g)
      else
        match tagMatchAux "<html".data "</html>".data trimmed.data with
        | some g2 => if g2 ≠ [] then String.mk (trimChars g2) else trimmed
        | none => trimmed
    | none =>
      match tagMatchAux "<html".data "</html>".data trimmed.data with
      | some g2 => if g2 ≠ [] then String.mk (trimChars g2) else trimmed
      | none => trimmed

instance {ε α : Type} [DecidableEq ε] [DecidableEq α] :
    DecidableEq (Except ε α) := fun a b =>
  match a, b with
  | .ok x, .ok y =>
    if h : x = y then .isTrue (by rw [h]) else .isFalse (by simp [h])
  | .ok _, .error _ => .isFalse (by simp)
  | .error _, .ok _ => .isFalse (by simp)
  | .error x, .error y =>
    if h : x = y then .isTrue (by rw [h]) else .isFalse (by simp [h])

/-- The user-safe error string `SUPPORT_MESSAGE` from `pipeline.ts`. -/
def SUPPORT_MESSAGE : String := "Something went wrong please contact support or retry"

/-- `PUBLIC_RUN_ERROR` from `worker.ts` (same literal text). -/
def PUBLIC_RUN_ERROR : String := "Something went wrong please contact support or retry"

/-! ## Rewrite-provider error model

Errors thrown by provider attempts are JavaScript `Error` values; the source
classifies them by matching regexes against `e.message`
(`isLikelyRateLimitError`, `isLikelyAuthOrBadRequest`,
`isGeminiQuotaOrBillingError`).  The embedding carries the outcome of those
three predicates as fields of the error value; the concrete error constants
created by the source itself are given the classification the regexes
actually produce on their message text. -/

structure RewriteError where
  msg : String
  /-- Value of `isLikelyRateLimitError` on this error (429 / rate limit /
  quota / too many requests). -/
  rateLimitLike : Bool
  /-- Value of `isLikelyAuthOrBadRequest` on this error (400/401/403/404 /
  invalid / not found). -/
  authOrBadLike : Bool
  /-- Value of `isGeminiQuotaOrBillingError` on this error. -/
  quotaBillingLike : Bool
  deriving Repr, DecidableEq

/-- `new Error("OPENAI_API_KEY missing")`: none of the classifier regexes
match this message. -/
def openAiKeyMissingErr : RewriteError :=
  { msg := "OPENAI_API_KEY missing", rateLimitLike := false,
    authOrBadLike := false, quotaBillingLike := false }

/-- `new Error("GEMINI_API_KEY missing")`: no classifier regex matches. -/
def geminiKeyMissingErr : RewriteError :=
  { msg := "GEMINI_API_KEY missing", rateLimitLike := false,
    authOrBadLike := false, quotaBillingLike := false }

/-- `new Error("No Gemini model found that supports generateContent")`:
no classifier regex matches (there is no literal "not found" substring). -/
def noGeminiModelErr : RewriteError :=
  { msg := "No Gemini model found that supports generateContent",
    rateLimitLike := false, authOrBadLike := false, quotaBillingLike := false }

/-- Fallback error for the `lastErr == null` branch of `retrying` (only
reachable when `maxAttempts = 0`, which the source never does). -/
def rewriteFailedErr : RewriteError :=
  { msg := "rewrite failed", rateLimitLike := false,
    authOrBadLike := false, quotaBillingLike := false }

/-- The `retrying` loop abandons a provider at once on errors classified as
rate-limit-like or auth/bad-request-like. -/
def fastFail (e : RewriteError) : Bool :=
  e.rateLimitLike || e.authOrBadLike

/-- Result of one run of the `retrying` helper, together with an execution
trace: how many attempts were actually made, and the backoff sleeps (in
milliseconds) performed between attempts. -/
structure RetryOut where
  result : Except RewriteError String
  attemptsMade : Nat
  sleeps : List Nat
  deriving Repr, DecidableEq

/-- Body of the `while (attempt < maxAttempts)` loop of `retrying` in
`pipeline.ts`.  `remaining` is `maxAttempts - attempt` (the loop guard),
`attempt` counts attempts already made, `onAttempt` is the attempt body. -/
def retryingGo (onAttempt : Nat → Except RewriteError String) :
    Nat → Nat → Option RewriteError → List Nat → RetryOut
  | 0, attempt, lastErr, sleeps =>
    { result := .error (lastErr.getD rewriteFailedErr),
      attemptsMade := attempt, sleeps := sleeps }
  | remaining + 1, attempt, _, sleeps =>
    let a := attempt + 1
    match onAttempt a with
    | .ok v => { result := .ok v, attemptsMade := a, sleeps := sleeps }
    | .error e =>
      if fastFail e then
        { result := .error e, attemptsMade := a, sleeps := sleeps }
      else if remaining = 0 then
        { result := .error e, attemptsMade := a, sleeps := sleeps }
      else
        retryingGo onAttempt remaining a (some e) (sleeps ++ [400 * a])

/-- `retrying` from `rewriteToHtmlFragment`: up to `maxAttempts` attempts,
immediate abandonment on rate-limit or auth/bad-request classification,
otherwise linear backoff `400 * attempt` ms between attempts. -/
def retrying (maxAttempts : Nat) (onAttempt : Nat → Except RewriteError String) :
    RetryOut :=
  retryingGo onAttempt maxAttempts 0 none []

/-- `tryOpenAi` from `pipeline.ts`: fails at once when `OPENAI_API_KEY` is
absent, otherwise runs `retrying` with `maxAttempts := 3`.  The network call
and output normalization of a single attempt (including the
"empty model output is a failure" rule) are the `attempts` oracle. -/
def tryOpenAi (hasKey : Bool) (attempts : Nat → Except RewriteError String) :
    RetryOut :=
  if hasKey then retrying 3 attempts
  else { result := .error openAiKeyMissingErr, attemptsMade := 0, sleeps := [] }

/-- External world of one `tryGemini` invocation: model configuration and
discovery results, and the per-attempt outcomes of the `generateContent`
calls (for the chosen model and, when the quota-recovery path runs, for the
alternative model). -/
structure GeminiOracles where
  /-- `process.env.GEMINI_MODEL` (the env-configured model name). -/
  configuredModel : Option String
  /-- Outcome of the initial `listModels`/`pickBestModel` autodetection
  ladder: an error (both API versions failed), or the best model if any. -/
  autoModel : Except RewriteError (Option String)
  /-- Model found by the second autodetection inside the quota-recovery
  branch, `none` when that detection fails or finds nothing. -/
  altModel : Option String
  /-- Attempt outcomes of `generateContent` on the chosen model. -/
  attempts : Nat → Except RewriteError String
  /-- Attempt outcomes of `generateContent` on the alternative model. -/
  altAttempts : Nat → Except RewriteError String

/-- `tryGemini` from `pipeline.ts`.  Key check, model resolution
(env-configured or autodetected), then `callWith`, whose `retrying` uses
`maxAttempts := 2` ("Free tier is extremely sensitive to burst traffic; keep
retries low").  When an env-configured model fails with a quota/billing or
auth/bad-request error, one alternative autodetected model is tried; any
failure there is swallowed and the original error is rethrown. -/
def tryGemini (hasKey : Bool) (g : GeminiOracles) : RetryOut :=
  if ¬hasKey then
    { result := .error geminiKeyMissingErr, attemptsMade := 0, sleeps := [] }
  else
    let modelRes : Except RewriteError (String × Bool) :=
      match g.configuredModel with
      | some m => .ok (m, true)
      | none =>
        match g.autoModel with
        | .error e => .error e
        | .ok none => .error noGeminiModelErr
        | .ok (some m) => .ok (m, false)
    match modelRes with
    | .error e => { result := .error e, attemptsMade := 0, sleeps := [] }
    | .ok (m, fromEnv) =>
      let first := retrying 2 g.attempts
      match first.result with
      | .ok _ => first
      | .error e =>
        if fromEnv && (e.quotaBillingLike || e.authOrBadLike) then
          match g.altModel with
          | some alt =>
            if alt ≠ m then
              let second := retrying 2 g.altAttempts
              match second.result with
              | .ok v =>
                { result := .ok v,
                  attemptsMade := first.attemptsMade + second.attemptsMade,
                  sleeps := first.sleeps ++ second.sleeps }
              | .error _ =>
                { result := .error e,
                  attemptsMade := first.attemptsMade + second.attemptsMade,
                  sleeps := first.sleeps ++ second.sleeps }
            else
              { result := .error e, attemptsMade := first.attemptsMade,
                sleeps := first.sleeps }
          | none =>
            { result := .error e, attemptsMade := first.attemptsMade,
              sleeps := first.sleeps }
        else
          { result := .error e, attemptsMade := first.attemptsMade,
            sleeps := first.sleeps }

/-! ## Rewrite fallback chain (`rewriteToHtmlFragment`) -/

/-- The two generative rewrite providers. -/
inductive Provider where
  | openai
  | gemini
  deriving Repr, DecidableEq

/-- The other provider (`primary === "openai" ? "gemini" : "openai"`). -/
def Provider.other : Provider → Provider
  | .openai => .gemini
  | .gemini => .openai

/-- Which rewrite providers are configured
(`!!process.env.OPENAI_API_KEY`, `!!(GEMINI_API_KEY || GOOGLE_API_KEY)`). -/
structure RewriteEnv where
  hasOpenAi : Bool
  hasGemini : Bool
  deriving Repr, DecidableEq

/-- External world of one `rewriteToHtmlFragment` call: the OpenAI attempt
outcomes and the Gemini oracles. -/
structure FileOracles where
  openaiAttempts : Nat → Except RewriteError String
  gemini : GeminiOracles

/-- `localMarkdownToHtml` inside `rewriteToHtmlFragment`: deterministic local
Markdown→HTML rendering.  `mdRender` stands for the external `marked.parse`
library call (total). -/
def localMarkdownToHtml (mdRender : String → String) (title markdown : String) :
    String :=
  normalizeHtmlFragment
    ("<article data-generator=\"local-fallback\">\n<h1>" ++ escapeHtml title ++
      "</h1>\n" ++ mdRender markdown ++ "\n</article>")

/-- Result of `rewriteToHtmlFragment`: the HTML fragment (the source function
always returns one — its final catch returns `localMarkdownToHtml()`), the
provider reported through `onPrimaryFailure` if the primary failed, and
whether the local renderer produced the output. -/
structure RewriteResult where
  html : String
  primaryFailed : Option Provider
  usedLocal : Bool
  deriving Repr, DecidableEq

/-- `callProvider` from `rewriteToHtmlFragment`. -/
def callProvider (env : RewriteEnv) (orc : FileOracles) : Provider → RetryOut
  | .openai => tryOpenAi env.hasOpenAi orc.openaiAttempts
  | .gemini => tryGemini env.hasGemini orc.gemini

/-- Primary-provider selection of `rewriteToHtmlFragment`: the caller's
preference when it names a configured provider, otherwise OpenAI when
configured, else Gemini. -/
def pickPrimary (env : RewriteEnv) (preferredPrimary : Option Provider) :
    Provider :=
  let defaultPrimary : Provider := if env.hasOpenAi then .openai else .gemini
  match preferredPrimary with
  | some p =>
    if (p = .openai ∧ env.hasOpenAi) ∨ (p = .gemini ∧ env.hasGemini) then p
    else defaultPrimary
  | none => defaultPrimary

/-- `rewriteToHtmlFragment` from `pipeline.ts`: with no provider configured,
the local renderer is used directly; otherwise the primary provider is
called, on failure `onPrimaryFailure` fires and the fallback provider is
called, and when the fallback also fails the local renderer's output is
returned (the function never throws). -/
def rewriteToHtmlFragment (env : RewriteEnv) (mdRender : String → String)
    (orc : FileOracles) (preferredPrimary : Option Provider)
    (title markdown : String) : RewriteResult :=
  if ¬env.hasOpenAi ∧ ¬env.hasGemini then
    { html := localMarkdownToHtml mdRender title markdown,
      primaryFailed := none, usedLocal := true }
  else
    let primary : Provider := pickPrimary env preferredPrimary
    let fallback := primary.other
    match (callProvider env orc primary).result with
    | .ok html => { html := html, primaryFailed := none, usedLocal := false }
    | .error _ =>
      match (callProvider env orc fallback).result with
      | .ok html =>
        { html := html, primaryFailed := some primary, usedLocal := false }
      | .error _ =>
        { html := localMarkdownToHtml mdRender title markdown,
          primaryFailed := some primary, usedLocal := true }

/-! ## Extraction fallback chain (`toMarkdown`, `localToMarkdown`,
`trelentIngestionToMarkdown`) -/

/-- External world of `localToMarkdown` for one file: the decoded UTF-8 text
of the file's bytes (`buf.toString("utf8")`), and the outcomes of the
external extractor libraries.  `jsonPretty` is the result of
`JSON.stringify(JSON.parse(raw), null, 2)` (`none` when `JSON.parse`
throws); `pdf` / `docx` are the `pdf-parse` / `mammoth` text results
(`Except` for a thrown error); `stripHtml` is `stripHtmlToText`
(a total regex chain). -/
structure ExtractWorld where
  utf8 : String
  jsonPretty : Option String
  pdf : Except String String
  docx : Except String String
  stripHtml : String → String

/-- `localToMarkdown` from `pipeline.ts`: dispatch on the lower-cased file
extension; every specialized-extractor failure (a thrown error, or empty
output from `pdf-parse`/`mammoth`) is caught and degrades to the raw UTF-8
decode of the bytes, so the function always produces a string. -/
def localToMarkdown (ext : String) (w : ExtractWorld) : String :=
  if ext = ".md" ∨ ext = ".markdown" then w.utf8
  else if ext = ".txt" ∨ ext = ".log" ∨ ext = ".csv" ∨ ext = ".tsv" then w.utf8
  else if ext = ".json" then
    match w.jsonPretty with
    | some p => "```json\n" ++ p ++ "\n```"
    | none => w.utf8
  else if ext = ".pdf" then
    match w.pdf with
    | .ok raw => let t := strTrim raw; if t = "" then w.utf8 else t
    | .error _ => w.utf8
  else if ext = ".docx" then
    match w.docx with
    | .ok raw => let t := strTrim raw; if t = "" then w.utf8 else t
    | .error _ => w.utf8
  else if ext = ".html" ∨ ext = ".htm" then
    let t := w.stripHtml w.utf8
    if t = "" then w.utf8 else t
  else w.utf8

/-- One candidate endpoint of the ingestion API: the outcomes of its
`tryOnce` attempts (a successful attempt returns non-empty Markdown; both a
non-2xx response and a response without Markdown content are errors). -/
def IngestCandidate : Type := Nat → Except String String

/-- Try one candidate endpoint up to 3 times (the `for (attempt = 1..3)`
loops of `trelentIngestionToMarkdown`, identical for the primary and each
fallback endpoint). -/
def tryIngestCandidate (c : IngestCandidate) : Except String String :=
  match c 1 with
  | .ok v => .ok v
  | .error _ =>
    match c 2 with
    | .ok v => .ok v
    | .error _ => c 3

/-- `trelentIngestionToMarkdown` after its configuration check: the primary
candidate endpoint is tried up to 3 times, then each fallback candidate up
to 3 times, in order; when every candidate is exhausted the generic support
message is thrown (`EXPOSE_PROVIDER_ERRORS` off, its default). -/
def trelentIngestion : List IngestCandidate → Except String String
  | [] => .error SUPPORT_MESSAGE
  | c :: rest =>
    match tryIngestCandidate c with
    | .ok v => .ok v
    | .error _ => trelentIngestion rest

/-- `toMarkdown` from `pipeline.ts`: prefer the ingestion API when both env
vars are configured, but catch any of its failures and fall back to
`localToMarkdown`; hence this stage never throws. -/
def toMarkdown (ingestionConfigured : Bool) (cands : List IngestCandidate)
    (ext : String) (w : ExtractWorld) : String :=
  if ¬ingestionConfigured then localToMarkdown ext w
  else
    match trelentIngestion cands with
    | .ok md => md
    | .error _ => localToMarkdown ext w

/-! ## Path helpers (Node `path` on POSIX) and `safeJoin` (`storage.ts`) -/

/-- `path.basename(p)`: the last `/`-separated component. -/
def pathBasename (p : String) : String :=
  ((pathSplit p).getLast?).getD ""

/-- Index of the last `.` in a character list, if any. -/
def lastDotIdx (cs : List Char) : Option Nat :=
  ((List.range cs.length).filter fun i => cs.getD i ' ' = '.').getLast?

/-- `path.extname(p)`: the suffix of the basename starting at its last dot;
empty for dotfiles (a leading dot at index 0) and for names without a dot. -/
def pathExtname (p : String) : String :=
  let b := pathBasename p
  match lastDotIdx b.data with
  | none => ""
  | some 0 => ""
  | some i => String.mk (b.data.drop i)

/-- `path.basename(p, ext)` as used by the pipeline: strip `ext` from the end
of the basename when it is a proper suffix. -/
def pathBaseNoExt (p : String) : String :=
  let b := pathBasename p
  let ext := pathExtname p
  if ext ≠ "" ∧ ext ≠ b ∧ ext.data.isSuffixOf b.data then
    String.mk (b.data.take (b.data.length - ext.data.length))
  else b

/-- `path.extname(p).toLowerCase()` (`extLower` in `pipeline.ts`). -/
def extLower (p : String) : String :=
  String.mk (lowerList (pathExtname p).data)

/-- Insert-or-replace on the association list modelling the
`Map<string, number>` of used output names. -/
def mapSet (m : List (String × Nat)) (k : String) (v : Nat) :
    List (String × Nat) :=
  match m with
  | [] => [(k, v)]
  | (k', v') :: rest =>
    if k' = k then (k, v) :: rest else (k', v') :: mapSet rest k v

/-- `makeUniqueOutputHtmlName` from `pipeline.ts`: the candidate name is
`base.html`; on a repeat of the same base the suffixed name
`base (n).html` is returned.  Only the un-suffixed key is ever recorded in
the map (the returned suffixed names are not), exactly as in the source. -/
def makeUniqueOutputHtmlName (baseNameNoExt : String)
    (used : List (String × Nat)) : String × List (String × Nat) :=
  let safeBase :=
    if baseNameNoExt = "" then "file"
    else
      let t := strTrim baseNameNoExt
      if t = "" then "file" else t
  let base := safeBase ++ ".html"
  let count := (alookup base used).getD 0
  if count = 0 then (base, mapSet used base 1)
  else
    let next := count + 1
    (safeBase ++ " (" ++ natToString next ++ ").html", mapSet used base next)

/-- Output names assigned to a list of stripped base names in discovery
order (the per-run fold the pipeline performs with its `usedOutputNames`
map). -/
def assignNames (bases : List String) : List String :=
  (bases.foldl
    (fun acc b =>
      let r := makeUniqueOutputHtmlName b acc.2
      (acc.1 ++ [r.1], r.2))
    (([] : List String), ([] : List (String × Nat)))).1

/-- One step of POSIX path normalization: empty and `.` segments are
dropped, `..` pops the last segment (above the root it is discarded, as
`path.resolve` does for absolute paths), anything else is kept. -/
def normSegsStep (stack : List String) (seg : String) : List String :=
  if seg = "" ∨ seg = "." then stack
  else if seg = ".." then stack.dropLast
  else stack ++ [seg]

/-- Normalize a `/`-split segment list. -/
def normSegs (segs : List String) : List String :=
  segs.foldl normSegsStep []

/-- Segments of `path.resolve(p)` for an absolute `p`. -/
def resolveSegs (p : String) : List String :=
  normSegs (pathSplit p)

/-- `path.resolve(p)` for an absolute POSIX path `p`: collapse `.`, `..`,
repeated and trailing separators. -/
def resolveAbs (p : String) : String :=
  "/" ++ strJoin (resolveSegs p)

/-- `safeJoin` from `storage.ts` for an absolute POSIX `baseDir`: backslashes
are normalized to `/`, one leading `/` is dropped, the path is joined and
resolved, and the result is accepted only when it starts with the resolved
base directory plus a separator; otherwise `Invalid path` is thrown.
`path.resolve(path.join(b, r))` for absolute `b` equals
`resolveAbs (b ++ "/" ++ r)`. -/
def safeJoin (baseDir rel : String) : Except String String :=
  let normalized := String.mk (replaceChar '\\' ['/'] rel.data)
  let rel' :=
    if strStartsWith normalized "/" then String.mk (normalized.data.drop 1)
    else normalized
  let finalPath := baseDir ++ "/" ++ rel'
  let resolvedBase := resolveAbs baseDir ++ "/"
  let resolvedFinal := resolveAbs finalPath
  if strStartsWith resolvedFinal resolvedBase then .ok resolvedFinal
  else .error "Invalid path"

/-! ## The per-run conversion pipeline (`runPipeline`) -/

/-- A manifest entry (`File Conversion Record`). -/
structure ManifestEntry where
  sourcePath : String
  outputFile : String
  title : String
  ok : Bool
  error : Option String
  deriving Repr, DecidableEq

/-- Observable side effects of the pipeline, in the order they are
performed: progress events (`onProgress`), input-file reads, per-file HTML
output writes into the guides directory, the manifest write (into the run's
output directory, not the guides directory), and the archive creation from
the guides directory. -/
inductive Action where
  | progress (p : Nat)
  | readInput (path : String)
  | writeHtml (name : String)
  | writeManifest (entries : List ManifestEntry)
  | zip (names : List String)
  deriving Repr, DecidableEq

/-- External world of one file's processing: `fault` is a thrown file-system
error inside the per-file `try` block (`none` when reading and writing
succeed), `md` is the Markdown `toMarkdown` produces (that stage never
throws, claim C6), and `rewrite` holds the provider oracles for
`rewriteToHtmlFragment`. -/
structure FileCtx where
  fault : Option String
  md : String
  rewrite : FileOracles

/-- Per-file record of the sticky-preference evolution: the preference when
the file started, the provider reported failed as primary (if any), and the
preference after the file. -/
structure FileLog where
  prefBefore : Option Provider
  primaryFailed : Option Provider
  prefAfter : Option Provider
  deriving Repr, DecidableEq

/-- Accumulated state of the per-run loop in `runPipeline`. -/
structure PipeState where
  pref : Option Provider
  used : List (String × Nat)
  manifest : List ManifestEntry
  guides : List (String × String)
  trace : List Action
  logs : List FileLog

/-- Writing a file into the guides directory: overwrite an existing entry of
that name, otherwise append. -/
def upsertGuide (gs : List (String × String)) (name html : String) :
    List (String × String) :=
  if (alookup name gs).isSome then
    gs.map fun kv => if kv.1 = name then (name, html) else kv
  else gs ++ [(name, html)]

/-- Static configuration of one run. -/
structure PipeEnv where
  hasOpenAi : Bool
  hasGemini : Bool
  inputDir : String
  mdRender : String → String

/-- The provider-configuration part of a `PipeEnv`. -/
def rewriteEnvOf (env : PipeEnv) : RewriteEnv :=
  ⟨env.hasOpenAi, env.hasGemini⟩

/-- Initial value of `preferredRewriteProvider` in `runPipeline`. -/
def initialPref (env : PipeEnv) : Option Provider :=
  if env.hasOpenAi then some .openai
  else if env.hasGemini then some .gemini
  else none

/-- The `onPrimaryFailure` closure of `runPipeline`: when both providers are
configured and the failed primary is the currently preferred provider, the
preference flips to the other provider. -/
def stickyFlip (env : PipeEnv) (pref : Option Provider)
    (failed : Option Provider) : Option Provider :=
  if ¬(env.hasOpenAi ∧ env.hasGemini) then pref
  else
    match failed with
    | none => pref
    | some p => if pref = some p then some p.other else pref

/-- Progress value before processing file `i` (0-based) out of `m`:
`Math.round(5 + (80 / m) * i)` — JavaScript float arithmetic modeled by
exact rational rounding, `⌊(5 + 80·i/m) + 1/2⌋ = (11·m + 160·i) / (2·m)`
in natural-number division (for `m ≥ 1`).  The value after file `i` is
`progAt m (i+1)`. -/
def progAt (m i : Nat) : Nat :=
  (11 * m + 160 * i) / (2 * m)

/-- Processing of one file inside the `for` loop of `runPipeline`:
`safeJoin` (outside the `try`, so its error aborts the run with no per-file
event), output-name assignment, the `converting` progress event, the `try`
body (extraction, rewrite, output write, manifest record — or the catch
branch: rethrow when the error message carries the support message,
otherwise an error placeholder), and the `finally` `writing` progress
event. -/
def processFile (env : PipeEnv) (total : Nat) (ctx : FileCtx) (i : Nat)
    (rel : String) (st : PipeState) : PipeState × Option String :=
  match safeJoin env.inputDir rel with
  | .error e => (st, some e)
  | .ok inputPath =>
    let title := pathBasename rel
    let baseNoExt := pathBaseNoExt rel
    let r := makeUniqueOutputHtmlName baseNoExt st.used
    let outName := r.1
    let convEv := progAt total i
    let writEv := progAt total (i + 1)
    let st1 : PipeState :=
      { st with used := r.2, trace := st.trace ++ [.progress convEv] }
    match ctx.fault with
    | some msg =>
      if msg = SUPPORT_MESSAGE ∨ strIncludes msg SUPPORT_MESSAGE then
        ({ st1 with trace := st1.trace ++ [.progress writEv],
                    logs := st1.logs ++ [⟨st1.pref, none, st1.pref⟩] }, some msg)
      else
        let html := "<h2>Conversion failed</h2>\n<p><strong>File:</strong> " ++
          escapeHtml rel ++ "</p>\n<p><strong>Error:</strong> " ++
          escapeHtml msg ++ "</p>"
        ({ st1 with
            guides := upsertGuide st1.guides outName html,
            manifest := st1.manifest ++ [⟨rel, outName, title, false, some msg⟩],
            trace := st1.trace ++ [.writeHtml outName, .progress writEv],
            logs := st1.logs ++ [⟨st1.pref, none, st1.pref⟩] }, none)
    | none =>
      let rw := rewriteToHtmlFragment (rewriteEnvOf env) env.mdRender
        ctx.rewrite st1.pref title ctx.md
      let pref' := stickyFlip env st1.pref rw.primaryFailed
      ({ st1 with
          pref := pref',
          guides := upsertGuide st1.guides outName rw.html,
          manifest := st1.manifest ++ [⟨rel, outName, title, true, none⟩],
          trace := st1.trace ++
            [.readInput inputPath, .writeHtml outName, .progress writEv],
          logs := st1.logs ++ [⟨st1.pref, rw.primaryFailed, pref'⟩] }, none)

/-- The `for (const rel of relFiles)` loop: sequential, aborted by the first
propagated error. -/
def goFiles (env : PipeEnv) (world : Nat → FileCtx) (total : Nat) :
    List String → Nat → PipeState → PipeState × Option String
  | [], _, st => (st, none)
  | rel :: rest, i, st =>
    match processFile env total (world i) i rel st with
    | (st', some e) => (st', some e)
    | (st', none) => goFiles env world total rest (i + 1) st'

/-- Final outcome of `runPipeline`: `error = none` means the run completed
and produced an archive. -/
structure PipeOutcome where
  error : Option String
  pref : Option Provider
  manifest : List ManifestEntry
  guides : List (String × String)
  trace : List Action
  logs : List FileLog

/-- `runPipeline` from `pipeline.ts`: enumerate files (throwing
`No uploaded files found` on an empty tree before anything else), emit the
initial 5% event, process each file in discovery order, then emit 90%,
write the manifest, archive the guides directory, and emit 100%. -/
def runPipeline (env : PipeEnv) (world : Nat → FileCtx)
    (files : List String) : PipeOutcome :=
  if files.isEmpty then
    { error := some "No uploaded files found", pref := initialPref env,
      manifest := [], guides := [], trace := [], logs := [] }
  else
    let st0 : PipeState :=
      { pref := initialPref env, used := [], manifest := [], guides := [],
        trace := [.progress 5], logs := [] }
    match goFiles env world files.length files 0 st0 with
    | (st, some e) =>
      { error := some e, pref := st.pref, manifest := st.manifest,
        guides := st.guides, trace := st.trace, logs := st.logs }
    | (st, none) =>
      { error := none, pref := st.pref, manifest := st.manifest,
        guides := st.guides,
        trace := st.trace ++
          [.progress 90, .writeManifest st.manifest,
           .zip (st.guides.map Prod.fst), .progress 100],
        logs := st.logs }

/-! ## Worker scheduler (`worker.ts`) -/

/-- Run lifecycle status. -/
inductive RunStatus where
  | queued
  | running
  | completed
  | failed
  deriving Repr, DecidableEq

/-- The fields of the stored run state relevant to the lifecycle claims. -/
structure StoredRun where
  status : RunStatus
  progress : Nat
  error : Option String
  downloadPath : Option String
  deriving Repr, DecidableEq

/-- The in-flight progress callback of `processRun`: it refuses to overwrite
a state whose status is not `running`; otherwise it merges the clamped
progress value into the current state. -/
def progressCallbackWrite (cur : StoredRun) (p : Nat) : Option StoredRun :=
  if cur.status ≠ .running then none
  else some { cur with progress := max 0 (min 100 p) }

/-- Stored states produced by feeding the pipeline's progress events through
the callback one at a time (each write reads the latest state). -/
def applyEvents (s : StoredRun) : List Nat → List StoredRun
  | [] => []
  | p :: ps =>
    match progressCallbackWrite s p with
    | none => applyEvents s ps
    | some s' => s' :: applyEvents s' ps

/-- The progress events of a pipeline trace, in order. -/
def progressEvents (tr : List Action) : List Nat :=
  tr.filterMap fun a =>
    match a with
    | .progress p => some p
    | _ => none

/-- `processRun` from `worker.ts` as the sequence of run-state writes it
performs: nothing at all when the stored status is not `queued`; otherwise
the `running` transition (carrying the queued progress forward), one write
per progress event, and the terminal write — `completed` with progress 100,
or `failed` with the progress read at dequeue time and the public error
message. -/
def processRunWrites (init : StoredRun) (out : PipeOutcome) : List StoredRun :=
  if init.status ≠ .queued then []
  else
    let running0 : StoredRun :=
      { status := .running, progress := max 0 init.progress, error := none,
        downloadPath := none }
    let pws := applyEvents running0 (progressEvents out.trace)
    let final : StoredRun :=
      match out.error with
      | none =>
        { status := .completed, progress := 100, error := none,
          downloadPath := some "guides.zip" }
      | some _ =>
        { status := .failed, progress := max 0 init.progress,
          error := some PUBLIC_RUN_ERROR, downloadPath := none }
    running0 :: pws ++ [final]

/-! ## Claim C4 — per-provider retry policy -/

/-- A provider error that every classifier regex misses (a retryable
error, for instance a 500 or a network timeout). -/
def plainErr (s : String) : RewriteError :=
  { msg := s, rateLimitLike := false, authOrBadLike := false,
    quotaBillingLike := false }

/-- Gemini attempt oracle whose first two attempts fail with a retryable
error while the third would succeed. -/
def c4att : Nat → Except RewriteError String := fun n =>
  if n ≤ 2 then .error (plainErr "boom 500") else .ok "late success"

/-- Gemini oracles for the C4 counterexample: an env-configured model whose
attempts follow `c4att`. -/
def c4gem : GeminiOracles :=
  { configuredModel := some "gemini-2.0-flash", autoModel := .ok none,
    altModel := none, attempts := c4att, altAttempts := c4att }

/-- Claim C4, counterexample: the claim says OpenAI and Gemini alike get up
to 3 attempts, but the Gemini `callWith` uses `maxAttempts := 2`: with two
retryable failures Gemini is already exhausted (one backoff sleep was
performed), even though a third attempt would have succeeded. -/
theorem c4_counterexample :
    tryGemini true c4gem =
      { result := .error (plainErr "boom 500"), attemptsMade := 2,
        sleeps := [400] } ∧
    c4att 3 = .ok "late success" := by
  decide

/-- Claim C4, amended: per provider invocation, OpenAI is attempted up to 3
times and Gemini up to 2 times; an attempt whose error is classified as
rate-limiting/quota (`rateLimitLike`) or auth/malformed-request
(`authOrBadLike`) abandons the provider immediately without consuming the
remaining attempts; other errors are retried with linear backoff
(`400 · attempt` ms). -/
theorem c4_amended (f gatt : Nat → Except RewriteError String) (gm : String)
    (e1 e2 e3 : RewriteError) :
    (fastFail e1 = false → fastFail e2 = false →
      f 1 = .error e1 → f 2 = .error e2 → f 3 = .error e3 →
      tryOpenAi true f =
        { result := .error e3, attemptsMade := 3, sleeps := [400, 800] }) ∧
    (fastFail e1 = true → f 1 = .error e1 →
      tryOpenAi true f =
        { result := .error e1, attemptsMade := 1, sleeps := [] }) ∧
    (fastFail e1 = false → fastFail e2 = true →
      f 1 = .error e1 → f 2 = .error e2 →
      tryOpenAi true f =
        { result := .error e2, attemptsMade := 2, sleeps := [400] }) ∧
    (fastFail e1 = false →
      gatt 1 = .error e1 → gatt 2 = .error e2 →
      (e2.quotaBillingLike || e2.authOrBadLike) = false →
      tryGemini true
        { configuredModel := some gm, autoModel := .ok none, altModel := none,
          attempts := gatt, altAttempts := gatt } =
        { result := .error e2, attemptsMade := 2, sleeps := [400] }) ∧
    (fastFail e1 = true → gatt 1 = .error e1 →
      tryGemini true
        { configuredModel := some gm, autoModel := .ok none, altModel := none,
          attempts := gatt, altAttempts := gatt } =
        { result := .error e1, attemptsMade := 1, sleeps := [] }) := by
  refine ⟨?_, ?_, ?_, ?_, ?_⟩
  · intro hf1 hf2 h1 h2 h3
    simp [tryOpenAi, retrying, retryingGo, h1, h2, h3, hf1, hf2]
  · intro hf1 h1
    simp [tryOpenAi, retrying, retryingGo, h1, hf1]
  · intro hf1 hf2 h1 h2
    simp [tryOpenAi, retrying, retryingGo, h1, h2, hf1, hf2]
  · intro hf1 h1 h2 hq
    simp [tryGemini, retrying, retryingGo, h1, h2, hf1, hq]
  · intro hf1 h1
    have hq : (e1.quotaBillingLike || e1.authOrBadLike) = true ∨
        (e1.quotaBillingLike || e1.authOrBadLike) = false := by
      cases (e1.quotaBillingLike || e1.authOrBadLike) <;> simp
    rcases hq with hq | hq <;>
      simp [tryGemini, retrying, retryingGo, h1, hf1, hq]

/-- Witness for `c4_amended` at a concrete retryable error. -/
theorem c4_amended_witness :
    tryOpenAi true (fun _ => .error (plainErr "e 500")) =
      { result := .error (plainErr "e 500"), attemptsMade := 3,
        sleeps := [400, 800] } :=
  (c4_amended (fun _ => .error (plainErr "e 500"))
      (fun _ => .error (plainErr "e 500")) "m"
      (plainErr "e 500") (plainErr "e 500") (plainErr "e 500")).1
    rfl rfl rfl rfl rfl

/-! ## Claim C5 — uniqueness of generated output names -/

/-- Claim C5: the suffixing scheme of `makeUniqueOutputHtmlName` fails to
record the suffixed names it hands out, so a source file whose stripped base
name is itself `x (2)` collides with the suffixed name generated for the
second `x`: the three files `x (2).txt`, `x.txt`, `x.md` receive the output
names `x (2).html`, `x.html`, `x (2).html` — not pairwise distinct. -/
theorem c5_collision_eval :
    assignNames (["x (2).txt", "x.txt", "x.md"].map pathBaseNoExt) =
      ["x (2).html", "x.html", "x (2).html"] ∧
    ¬ (assignNames (["x (2).txt", "x.txt", "x.md"].map pathBaseNoExt)).Nodup := by
  decide

/-! ## Claim C8 — zero input files abort the run before any file -/

/-- Claim C8: with zero discovered files, `runPipeline` throws
`No uploaded files found` before any per-file processing: no progress event,
no output, no manifest entry; the worker maps the error to a `failed`
terminal write. -/
theorem c8_empty_input (env : PipeEnv) (world : Nat → FileCtx)
    (files : List String) (init : StoredRun)
    (hfiles : files = []) (hinit : init.status = .queued) :
    (runPipeline env world files).error = some "No uploaded files found" ∧
    (runPipeline env world files).trace = [] ∧
    (runPipeline env world files).manifest = [] ∧
    (runPipeline env world files).guides = [] ∧
    processRunWrites init (runPipeline env world files) =
      [⟨.running, max 0 init.progress, none, none⟩,
       ⟨.failed, max 0 init.progress, some PUBLIC_RUN_ERROR, none⟩] := by
  subst hfiles
  refine ⟨rfl, rfl, rfl, rfl, ?_⟩
  simp [processRunWrites, hinit, runPipeline, progressEvents, applyEvents]

/-- Provider oracles that always fail (used by thin concrete worlds). -/
def allFailOracles : FileOracles :=
  { openaiAttempts := fun _ => .error (plainErr "down"),
    gemini :=
      { configuredModel := none, autoModel := .ok none, altModel := none,
        attempts := fun _ => .error (plainErr "down"),
        altAttempts := fun _ => .error (plainErr "down") } }

/-- Environment with no rewrite provider configured. -/
def noLlmEnv : PipeEnv :=
  { hasOpenAi := false, hasGemini := false,
    inputDir := "/data/uploads/u1/input", mdRender := id }

/-- A file world with no file-system faults. -/
def plainWorld : Nat → FileCtx := fun _ => ⟨none, "hello world", allFailOracles⟩

/-- Witness for `c8_empty_input` on a concrete empty run. -/
theorem c8_witness :
    (runPipeline noLlmEnv plainWorld []).error = some "No uploaded files found" ∧
    (runPipeline noLlmEnv plainWorld []).trace = [] ∧
    (runPipeline noLlmEnv plainWorld []).manifest = [] ∧
    (runPipeline noLlmEnv plainWorld []).guides = [] ∧
    processRunWrites ⟨.queued, 0, none, none⟩ (runPipeline noLlmEnv plainWorld []) =
      [⟨.running, max 0 0, none, none⟩,
       ⟨.failed, max 0 0, some PUBLIC_RUN_ERROR, none⟩] :=
  c8_empty_input noLlmEnv plainWorld [] ⟨.queued, 0, none, none⟩ rfl rfl

/-! ## Claim C9 — terminal run states are never overwritten -/

/-- Claim C9: `processRun` refuses to start a run whose stored status is not
`queued` (so a completed or failed run is never restarted and none of its
writes happen), and the in-flight progress callback never overwrites a run
state whose status is not `running`. -/
theorem c9_terminal_final (init : StoredRun) (out : PipeOutcome)
    (cur : StoredRun) (p : Nat)
    (hinit : init.status = .completed ∨ init.status = .failed)
    (hcur : cur.status = .completed ∨ cur.status = .failed) :
    processRunWrites init out = [] ∧ progressCallbackWrite cur p = none := by
  constructor
  · rcases hinit with h | h <;> simp [processRunWrites, h]
  · rcases hcur with h | h <;> simp [progressCallbackWrite, h]

/-- An empty pipeline outcome used to instantiate `c9_terminal_final`. -/
def c9out : PipeOutcome := ⟨none, none, [], [], [], []⟩

/-- Witness for `c9_terminal_final` at concrete terminal states. -/
theorem c9_witness :
    processRunWrites ⟨.completed, 100, none, some "guides.zip"⟩ c9out = [] ∧
    progressCallbackWrite ⟨.failed, 40, some "err", none⟩ 50 = none :=
  c9_terminal_final ⟨.completed, 100, none, some "guides.zip"⟩ c9out
    ⟨.failed, 40, some "err", none⟩ 50 (Or.inl rfl) (Or.inr rfl)

/-! ## Claim C6 — extraction never raises -/

/-- The exhausted-candidates ladder of `trelentIngestionToMarkdown` ends in
the generic support-message error. -/
theorem trelentIngestion_exhaust (cands : List IngestCandidate)
    (h : ∀ c ∈ cands, ∃ f1 f2 f3,
      c 1 = .error f1 ∧ c 2 = .error f2 ∧ c 3 = .error f3) :
    trelentIngestion cands = .error SUPPORT_MESSAGE := by
  induction cands with
  | nil => rfl
  | cons c rest ih =>
    obtain ⟨f1, f2, f3, h1, h2, h3⟩ := h c (by simp)
    have hc : tryIngestCandidate c = .error f3 := by
      simp [tryIngestCandidate, h1, h2, h3]
    simp only [trelentIngestion, hc]
    exact ih fun c' hc' => h c' (by simp [hc'])

/-- Claim C6: the extraction stage is total.  When the remote capability is
unconfigured, or when every candidate endpoint exhausts its 3 attempts,
`toMarkdown` falls back to `localToMarkdown`; a failing or empty `pdf-parse`
or `mammoth` extraction degrades further to the raw UTF-8 decode; and in
every case `toMarkdown` returns either the remote Markdown or the local
extraction — it never raises. -/
theorem c6_extraction_total (cfg : Bool) (cands : List IngestCandidate)
    (ext : String) (w : ExtractWorld) :
    (cfg = false → toMarkdown cfg cands ext w = localToMarkdown ext w) ∧
    ((∀ c ∈ cands, ∃ f1 f2 f3,
        c 1 = .error f1 ∧ c 2 = .error f2 ∧ c 3 = .error f3) →
      trelentIngestion cands = .error SUPPORT_MESSAGE ∧
      toMarkdown cfg cands ext w = localToMarkdown ext w) ∧
    (((∃ s, w.pdf = .error s) ∨ (∃ raw, w.pdf = .ok raw ∧ strTrim raw = "")) →
      localToMarkdown ".pdf" w = w.utf8) ∧
    (((∃ s, w.docx = .error s) ∨ (∃ raw, w.docx = .ok raw ∧ strTrim raw = "")) →
      localToMarkdown ".docx" w = w.utf8) ∧
    ((∃ md, cfg = true ∧ trelentIngestion cands = .ok md ∧
        toMarkdown cfg cands ext w = md) ∨
      toMarkdown cfg cands ext w = localToMarkdown ext w) := by
  refine ⟨?_, ?_, ?_, ?_, ?_⟩
  · intro h; simp [toMarkdown, h]
  · intro h
    have hing := trelentIngestion_exhaust cands h
    refine ⟨hing, ?_⟩
    cases cfg <;> simp [toMarkdown, hing]
  · rintro (⟨s, hs⟩ | ⟨raw, hraw, htrim⟩) <;> simp [localToMarkdown, *]
  · rintro (⟨s, hs⟩ | ⟨raw, hraw, htrim⟩) <;> simp [localToMarkdown, *]
  · cases cfg with
    | false => right; simp [toMarkdown]
    | true =>
      cases hres : trelentIngestion cands with
      | ok md => left; exact ⟨md, rfl, rfl, by simp [toMarkdown, hres]⟩
      | error e => right; simp [toMarkdown, hres]

/-- A concrete extraction world whose specialized extractors all fail. -/
def c6w : ExtractWorld :=
  ⟨"raw text", none, .error "pdf boom", .error "docx boom", id⟩

/-- Witness for `c6_extraction_total`: unconfigured ingestion uses local
extraction, and a failing PDF extractor degrades to the raw decode. -/
theorem c6_witness :
    toMarkdown false [] ".pdf" c6w = localToMarkdown ".pdf" c6w ∧
    localToMarkdown ".pdf" c6w = c6w.utf8 :=
  ⟨(c6_extraction_total false [] ".pdf" c6w).1 rfl,
   (c6_extraction_total false [] ".pdf" c6w).2.2.1 (Or.inl ⟨"pdf boom", rfl⟩)⟩

/-! ## Claim C1 — behaviour when every configured provider is exhausted -/

/-- Environment with only OpenAI configured. -/
def c1env : PipeEnv :=
  { hasOpenAi := true, hasGemini := false,
    inputDir := "/data/uploads/u1/input", mdRender := id }

/-- Claim C1, counterexample: exactly one provider (OpenAI) is configured
and it exhausts all retry attempts for the file, yet the run does NOT fail:
`rewriteToHtmlFragment` returns the local renderer's output, the file gets
an `ok` manifest record whose HTML is the local fallback, and the stored run
state ends `completed` — the claimed critical failure never happens. -/
theorem c1_counterexample :
    (runPipeline c1env plainWorld ["doc.md"]).error = none ∧
    (runPipeline c1env plainWorld ["doc.md"]).manifest =
      [⟨"doc.md", "doc.html", "doc.md", true, none⟩] ∧
    (runPipeline c1env plainWorld ["doc.md"]).guides =
      [("doc.html", localMarkdownToHtml id "doc.md" "hello world")] ∧
    (tryOpenAi c1env.hasOpenAi allFailOracles.openaiAttempts).result =
      .error (plainErr "down") ∧
    (processRunWrites ⟨.queued, 0, none, none⟩
        (runPipeline c1env plainWorld ["doc.md"])).getLast? =
      some ⟨.completed, 100, none, some "guides.zip"⟩ := by
  decide

/-- Claim C1, amended: when at least one generative provider is configured
and every configured provider's call fails (the unconfigured one fails with
its key-missing error), `rewriteToHtmlFragment` does not propagate any
error: it reports the primary failure and returns the local
Markdown-to-HTML renderer's output, so the file is written as an `ok`
record and the run continues.  The critical-failure branch of `runPipeline`
only fires for thrown errors whose message carries the support message,
which the rewrite stage never throws. -/
theorem c1_amended (env : RewriteEnv) (mdRender : String → String)
    (orc : FileOracles) (pref : Option Provider) (title md : String)
    (hcfg : env.hasOpenAi = true ∨ env.hasGemini = true)
    (ho : ∃ e, (tryOpenAi env.hasOpenAi orc.openaiAttempts).result = .error e)
    (hg : ∃ e, (tryGemini env.hasGemini orc.gemini).result = .error e) :
    rewriteToHtmlFragment env mdRender orc pref title md =
      { html := localMarkdownToHtml mdRender title md,
        primaryFailed := some (pickPrimary env pref), usedLocal := true } := by
  obtain ⟨eo, heo⟩ := ho
  obtain ⟨eg, heg⟩ := hg
  have hcall : ∀ p : Provider, ∃ e, (callProvider env orc p).result = .error e := by
    intro p
    cases p
    · exact ⟨eo, heo⟩
    · exact ⟨eg, heg⟩
  have hne : ¬(¬env.hasOpenAi ∧ ¬env.hasGemini) := by
    rcases hcfg with h | h <;> simp [h]
  obtain ⟨e1, he1⟩ := hcall (pickPrimary env pref)
  obtain ⟨e2, he2⟩ := hcall (pickPrimary env pref).other
  simp only [rewriteToHtmlFragment]
  rw [if_neg hne]
  simp [he1, he2]

/-- Witness for `c1_amended` at the concrete single-provider world of the
counterexample run. -/
theorem c1_amended_witness :
    rewriteToHtmlFragment (rewriteEnvOf c1env) id allFailOracles
        (some .openai) "doc.md" "hello world" =
      { html := localMarkdownToHtml id "doc.md" "hello world",
        primaryFailed := some (pickPrimary (rewriteEnvOf c1env) (some .openai)),
        usedLocal := true } :=
  c1_amended (rewriteEnvOf c1env) id allFailOracles (some .openai)
    "doc.md" "hello world" (Or.inl rfl)
    ⟨plainErr "down", by decide⟩ ⟨geminiKeyMissingErr, by decide⟩

/-! ## Claim C3 — evolution of the sticky provider preference -/

/-- Gemini oracles that always succeed with `s`. -/
def okGemini (s : String) : GeminiOracles :=
  { configuredModel := some "gemini-2.5-flash", autoModel := .ok none,
    altModel := none, attempts := fun _ => .ok s,
    altAttempts := fun _ => .ok s }

/-- Gemini oracles that always fail with a retryable error. -/
def failGemini : GeminiOracles :=
  { configuredModel := some "gemini-2.5-flash", autoModel := .ok none,
    altModel := none, attempts := fun _ => .error (plainErr "g down"),
    altAttempts := fun _ => .error (plainErr "g down") }

/-- World for the C3 counterexample: on file 0 OpenAI is down and Gemini
works, on later files Gemini is down and OpenAI works. -/
def c3world : Nat → FileCtx := fun i =>
  if i = 0 then
    ⟨none, "m0", ⟨fun _ => .error (plainErr "o down"), okGemini "G1"⟩⟩
  else
    ⟨none, "m1", ⟨fun _ => .ok "O2", failGemini⟩⟩

/-- Environment with both rewrite providers configured. -/
def bothEnv : PipeEnv :=
  { hasOpenAi := true, hasGemini := true,
    inputDir := "/data/uploads/u1/input", mdRender := id }

/-- Claim C3, counterexample: with both providers configured the run-scoped
preference changes TWICE — it starts at OpenAI, flips to Gemini when OpenAI
exhausts its retries on file 0, and flips BACK to OpenAI when Gemini (now
the preferred primary) exhausts its retries on file 1.  The claim's "flips
at most once and never changes again" is false. -/
theorem c3_counterexample :
    (runPipeline bothEnv c3world ["a.txt", "b.txt"]).logs =
      [⟨some .openai, some .openai, some .gemini⟩,
       ⟨some .gemini, some .gemini, some .openai⟩] ∧
    (runPipeline bothEnv c3world ["a.txt", "b.txt"]).error = none := by
  decide

/-- The preference evolution recorded by a run, as a chained list of
per-file transitions each governed by `stickyFlip`. -/
inductive LogChain (env : PipeEnv) :
    Option Provider → List FileLog → Option Provider → Prop where
  | nil : ∀ p, LogChain env p [] p
  | cons : ∀ p lg rest q,
      lg.prefBefore = p →
      lg.prefAfter = stickyFlip env p lg.primaryFailed →
      LogChain env lg.prefAfter rest q →
      LogChain env p (lg :: rest) q

/-- `stickyFlip` leaves the preference unchanged when no primary failure is
reported. -/
theorem stickyFlip_none (env : PipeEnv) (p : Option Provider) :
    stickyFlip env p none = p := by
  unfold stickyFlip
  split <;> rfl

/-- When `stickyFlip` changes the preference, both providers are configured,
the failed provider is the old preference, and the new preference is the
other provider. -/
theorem stickyFlip_change (env : PipeEnv) (p f : Option Provider)
    (h : stickyFlip env p f ≠ p) :
    env.hasOpenAi = true ∧ env.hasGemini = true ∧
    ∃ q, f = some q ∧ p = some q ∧ stickyFlip env p f = some q.other := by
  by_cases hb : env.hasOpenAi = true ∧ env.hasGemini = true
  · cases f with
    | none => rw [stickyFlip_none] at h; exact absurd rfl h
    | some q =>
      by_cases hp : p = some q
      · subst hp
        refine ⟨hb.1, hb.2, q, rfl, rfl, ?_⟩
        unfold stickyFlip
        rw [if_neg (not_not_intro hb)]
        simp
      · exfalso
        apply h
        unfold stickyFlip
        rw [if_neg (not_not_intro hb)]
        simp [hp]
  · exfalso
    apply h
    unfold stickyFlip
    rw [if_pos hb]

/-- Every log of a `LogChain` is a `stickyFlip` step. -/
theorem LogChain.valid {env : PipeEnv} {p q : Option Provider}
    {lgs : List FileLog} (h : LogChain env p lgs q) :
    ∀ lg ∈ lgs, lg.prefAfter = stickyFlip env lg.prefBefore lg.primaryFailed := by
  induction h with
  | nil => simp
  | cons p lg rest q hb hs _ ih =>
    intro lg' hmem
    rcases List.mem_cons.mp hmem with h' | h'
    · subst h'; rw [hb]; exact hs
    · exact ih lg' h'

/-- The first log of a `LogChain` starts at the chain's initial
preference. -/
theorem LogChain.head {env : PipeEnv} {p q : Option Provider}
    {lgs : List FileLog} (h : LogChain env p lgs q) :
    ∀ lg ∈ lgs.head?, lg.prefBefore = p := by
  cases h with
  | nil => simp
  | cons p lg rest q hb _ _ => simpa using hb

/-- Consecutive logs of a `LogChain` are linked: each file starts at the
preference the previous file ended with. -/
theorem LogChain.chain' {env : PipeEnv} {p q : Option Provider}
    {lgs : List FileLog} (h : LogChain env p lgs q) :
    List.Chain' (fun a b => b.prefBefore = a.prefAfter) lgs := by
  induction h with
  | nil => simp
  | cons p lg rest q _ _ hrest ih =>
    refine List.chain'_cons'.mpr ⟨?_, ih⟩
    intro y hy
    exact hrest.head y hy

/-- `processFile` either leaves preference and logs unchanged (the
`safeJoin` abort) or appends exactly one `stickyFlip`-governed log. -/
theorem processFile_logs (env : PipeEnv) (total : Nat) (ctx : FileCtx)
    (i : Nat) (rel : String) (st : PipeState) :
    ((processFile env total ctx i rel st).1.pref = st.pref ∧
      (processFile env total ctx i rel st).1.logs = st.logs) ∨
    ∃ lg, (processFile env total ctx i rel st).1.logs = st.logs ++ [lg] ∧
      lg.prefBefore = st.pref ∧
      lg.prefAfter = stickyFlip env st.pref lg.primaryFailed ∧
      (processFile env total ctx i rel st).1.pref = lg.prefAfter := by
  unfold processFile
  cases hsj : safeJoin env.inputDir rel with
  | error e => left; exact ⟨rfl, rfl⟩
  | ok inputPath =>
    cases hf : ctx.fault with
    | some msg =>
      dsimp only
      by_cases hcrit : msg = SUPPORT_MESSAGE ∨ strIncludes msg SUPPORT_MESSAGE = true
      · right
        rw [if_pos hcrit]
        exact ⟨_, rfl, rfl, (stickyFlip_none env st.pref).symm, rfl⟩
      · right
        rw [if_neg hcrit]
        exact ⟨_, rfl, rfl, (stickyFlip_none env st.pref).symm, rfl⟩
    | none =>
      right
      exact ⟨_, rfl, rfl, rfl, rfl⟩

/-- The loop of `runPipeline` only appends `LogChain`-valid logs. -/
theorem goFiles_logchain (env : PipeEnv) (world : Nat → FileCtx) (total : Nat) :
    ∀ (files : List String) (i : Nat) (st : PipeState),
      ∃ Δ, (goFiles env world total files i st).1.logs = st.logs ++ Δ ∧
        LogChain env st.pref Δ (goFiles env world total files i st).1.pref := by
  intro files
  induction files with
  | nil => intro i st; exact ⟨[], by simp [goFiles], LogChain.nil st.pref⟩
  | cons rel rest ih =>
    intro i st
    rcases hpf : processFile env total (world i) i rel st with ⟨st', err⟩
    have hlogs := processFile_logs env total (world i) i rel st
    rw [hpf] at hlogs
    cases err with
    | some e =>
      simp only [goFiles, hpf]
      rcases hlogs with ⟨hp, hl⟩ | ⟨lg, hl, hb, hs, hp⟩
      · have hp' : st'.pref = st.pref := hp
        have hl' : st'.logs = st.logs := hl
        refine ⟨[], by simp [hl'], ?_⟩
        rw [hp']
        exact LogChain.nil st.pref
      · have hp' : st'.pref = lg.prefAfter := hp
        have hl' : st'.logs = st.logs ++ [lg] := hl
        refine ⟨[lg], hl', ?_⟩
        refine LogChain.cons st.pref lg [] st'.pref hb hs ?_
        rw [hp']
        exact LogChain.nil lg.prefAfter
    | none =>
      simp only [goFiles, hpf]
      obtain ⟨Δ', hΔl, hΔc⟩ := ih (i + 1) st'
      rcases hlogs with ⟨hp, hl⟩ | ⟨lg, hl, hb, hs, hp⟩
      · have hp' : st'.pref = st.pref := hp
        have hl' : st'.logs = st.logs := hl
        refine ⟨Δ', by rw [hΔl, hl'], ?_⟩
        rw [← hp']
        exact hΔc
      · have hp' : st'.pref = lg.prefAfter := hp
        have hl' : st'.logs = st.logs ++ [lg] := hl
        refine ⟨lg :: Δ', by rw [hΔl, hl']; simp, ?_⟩
        refine LogChain.cons st.pref lg Δ' _ hb hs ?_
        rw [← hp']
        exact hΔc

/-- Claim C3, amended: the run-scoped preference starts at the configured
primary provider and evolves only through `stickyFlip`: it changes on a file
exactly when both providers are configured and the currently preferred
provider exhausted its retries as primary there, and each such change is to
the other provider.  (It is not limited to a single flip: the preference can
flip back when the newly preferred provider later exhausts its retries, as
`c3_counterexample` shows.) -/
theorem c3_amended (env : PipeEnv) (world : Nat → FileCtx)
    (files : List String) :
    (∀ lg ∈ (runPipeline env world files).logs,
      lg.prefAfter = stickyFlip env lg.prefBefore lg.primaryFailed ∧
      (lg.prefAfter ≠ lg.prefBefore →
        env.hasOpenAi = true ∧ env.hasGemini = true ∧
        ∃ p, lg.primaryFailed = some p ∧ lg.prefBefore = some p ∧
          lg.prefAfter = some p.other)) ∧
    (∀ lg ∈ (runPipeline env world files).logs.head?,
      lg.prefBefore = initialPref env) ∧
    List.Chain' (fun a b => b.prefBefore = a.prefAfter)
      (runPipeline env world files).logs := by
  have key : ∃ q,
      LogChain env (initialPref env) (runPipeline env world files).logs q := by
    unfold runPipeline
    cases hfe : files.isEmpty
    · simp only [Bool.false_eq_true, if_false]
      rcases hgo : goFiles env world files.length files 0
          { pref := initialPref env, used := [], manifest := [], guides := [],
            trace := [.progress 5], logs := [] } with ⟨st, err⟩
      obtain ⟨Δ, hΔl, hΔc⟩ := goFiles_logchain env world files.length files 0
        { pref := initialPref env, used := [], manifest := [], guides := [],
          trace := [.progress 5], logs := [] }
      rw [hgo] at hΔl hΔc
      have hΔl' : st.logs = Δ := by simpa using hΔl
      have hΔc' : LogChain env (initialPref env) Δ st.pref := hΔc
      refine ⟨st.pref, ?_⟩
      cases err <;> (dsimp only; rw [hΔl']; exact hΔc')
    · refine ⟨initialPref env, ?_⟩
      simp only [if_pos]
      exact LogChain.nil (initialPref env)
  obtain ⟨q, hc⟩ := key
  refine ⟨?_, hc.head, hc.chain'⟩
  intro lg hmem
  refine ⟨hc.valid lg hmem, ?_⟩
  intro hne
  have := stickyFlip_change env lg.prefBefore lg.primaryFailed
    (by rw [← hc.valid lg hmem]; exact hne)
  obtain ⟨h1, h2, p, hf, hb, hres⟩ := this
  exact ⟨h1, h2, p, hf, hb, by rw [hc.valid lg hmem, hres]⟩

/-- Witness for `c3_amended`: the single log of a concrete one-file run
with both providers configured is a `stickyFlip` step. -/
theorem c3_amended_witness :
    (⟨some .openai, some .openai, some .gemini⟩ : FileLog).prefAfter =
      stickyFlip bothEnv (some .openai) (some .openai) :=
  ((c3_amended bothEnv c3world ["x.txt"]).1
    ⟨some .openai, some .openai, some .gemini⟩ (by decide)).1

/-! ## Claim C2 — monotonicity of stored progress and the 100% boundary -/

/-- `progAt` is monotone in the file index. -/
theorem progAt_mono (m : Nat) {i j : Nat} (h : i ≤ j) :
    progAt m i ≤ progAt m j := by
  unfold progAt
  exact Nat.div_le_div_right (by omega)

/-- The first progress value of the loop is the initial 5%. -/
theorem progAt_zero (m : Nat) (hm : 1 ≤ m) : progAt m 0 = 5 := by
  unfold progAt
  rw [Nat.mul_zero, Nat.add_zero, Nat.mul_comm 11 m, Nat.mul_comm 2 m,
    Nat.mul_div_mul_left 11 2 (by omega)]

/-- After the last file the loop progress is 85%. -/
theorem progAt_last (m : Nat) (hm : 1 ≤ m) : progAt m m = 85 := by
  unfold progAt
  have h : 11 * m + 160 * m = m * 171 := by ring
  rw [h, Nat.mul_comm 2 m, Nat.mul_div_mul_left 171 2 (by omega)]

/-- Every in-loop progress value is at most 85%. -/
theorem progAt_le_85 (m i : Nat) (hm : 1 ≤ m) (hi : i ≤ m) :
    progAt m i ≤ 85 :=
  (progAt_mono m hi).trans (le_of_eq (progAt_last m hm))

/-- `progressEvents` distributes over trace concatenation. -/
theorem progressEvents_append (t1 t2 : List Action) :
    progressEvents (t1 ++ t2) = progressEvents t1 ++ progressEvents t2 :=
  List.filterMap_append t1 t2 _

/-- Per-file trace contribution: a file either aborts at `safeJoin` with the
state untouched, or appends a block whose progress events are exactly the
`converting` and `writing` events `[progAt total i, progAt total (i+1)]`. -/
theorem processFile_trace (env : PipeEnv) (total : Nat) (ctx : FileCtx)
    (i : Nat) (rel : String) (st : PipeState) :
    (processFile env total ctx i rel st).1 = st ∨
    ∃ tb, (processFile env total ctx i rel st).1.trace = st.trace ++ tb ∧
      progressEvents tb = [progAt total i, progAt total (i + 1)] := by
  unfold processFile
  cases hsj : safeJoin env.inputDir rel with
  | error e => left; rfl
  | ok inputPath =>
    cases hf : ctx.fault with
    | some msg =>
      dsimp only
      by_cases hcrit : msg = SUPPORT_MESSAGE ∨ strIncludes msg SUPPORT_MESSAGE = true
      · right
        rw [if_pos hcrit]
        exact ⟨[.progress (progAt total i), .progress (progAt total (i + 1))],
          by simp, by simp [progressEvents]⟩
      · right
        rw [if_neg hcrit]
        refine ⟨[.progress (progAt total i),
          .writeHtml (makeUniqueOutputHtmlName (pathBaseNoExt rel) st.used).1,
          .progress (progAt total (i + 1))], by simp, by simp [progressEvents]⟩
    | none =>
      right
      refine ⟨[.progress (progAt total i), .readInput inputPath,
        .writeHtml (makeUniqueOutputHtmlName (pathBaseNoExt rel) st.used).1,
        .progress (progAt total (i + 1))], by simp, by simp [progressEvents]⟩

/-- Invariant of the per-run loop: progress events stay chained
(non-decreasing) and bounded by the progress value of the next index; a
completed loop ends at index `i + files.length`. -/
theorem goFiles_events (env : PipeEnv) (world : Nat → FileCtx) (m : Nat) :
    ∀ (files : List String) (i : Nat) (st : PipeState),
      List.Chain' (· ≤ ·) (progressEvents st.trace) →
      (∀ p ∈ progressEvents st.trace, p ≤ progAt m i) →
      List.Chain' (· ≤ ·)
        (progressEvents (goFiles env world m files i st).1.trace) ∧
      ∃ j, i ≤ j ∧ j ≤ i + files.length ∧
        (∀ p ∈ progressEvents (goFiles env world m files i st).1.trace,
          p ≤ progAt m j) ∧
        ((goFiles env world m files i st).2 = none → j = i + files.length) := by
  intro files
  induction files with
  | nil =>
    intro i st hch hbd
    exact ⟨hch, i, le_refl i, by simp, hbd, fun _ => by simp⟩
  | cons rel rest ih =>
    intro i st hch hbd
    rcases hpf : processFile env m (world i) i rel st with ⟨st', err⟩
    have htr := processFile_trace env m (world i) i rel st
    rw [hpf] at htr
    have hkey : List.Chain' (· ≤ ·) (progressEvents st'.trace) ∧
        ∀ p ∈ progressEvents st'.trace, p ≤ progAt m (i + 1) := by
      rcases htr with h | ⟨tb, hte, hev⟩
      · have h' : st' = st := h
        rw [h']
        exact ⟨hch, fun p hp => (hbd p hp).trans (progAt_mono m (Nat.le_succ i))⟩
      · have hte' : st'.trace = st.trace ++ tb := hte
        rw [hte', progressEvents_append, hev]
        constructor
        · refine List.Chain'.append hch ?_ ?_
          · exact List.chain'_cons.mpr
              ⟨progAt_mono m (Nat.le_succ i), List.chain'_singleton _⟩
          · intro x hx y hy
            have hx' : x ∈ progressEvents st.trace := by
              obtain ⟨hne, hxl⟩ := List.mem_getLast?_eq_getLast hx
              rw [hxl]
              exact List.getLast_mem hne
            have hy' : progAt m i = y := by simpa using hy
            rw [← hy']
            exact hbd x hx'
        · intro p hp
          rcases List.mem_append.mp hp with h | h
          · exact (hbd p h).trans (progAt_mono m (Nat.le_succ i))
          · rcases List.mem_cons.mp h with h' | h'
            · rw [h']; exact progAt_mono m (Nat.le_succ i)
            · have hp' : p = progAt m (i + 1) := by simpa using h'
              exact le_of_eq hp'
    cases err with
    | some e =>
      simp only [goFiles, hpf]
      refine ⟨hkey.1, i + 1, Nat.le_succ i, ?_, hkey.2, ?_⟩
      · simp only [List.length_cons]; omega
      · intro hc; simp at hc
    | none =>
      simp only [goFiles, hpf]
      obtain ⟨hch', j, hij, hjle, hbd', hcomp⟩ := ih (i + 1) st' hkey.1 hkey.2
      refine ⟨hch', j, by omega, ?_, hbd', ?_⟩
      · simp only [List.length_cons]; omega
      · intro hc
        have := hcomp hc
        simp only [List.length_cons]
        omega

/-- Progress events of one whole run: always a non-decreasing chain; a
completed run's events end in `[90, 100]` with everything before bounded by
90; an aborted run's events are all bounded by 85. -/
theorem runPipeline_events (env : PipeEnv) (world : Nat → FileCtx)
    (files : List String) (hne : files ≠ []) :
    List.Chain' (· ≤ ·) (progressEvents (runPipeline env world files).trace) ∧
    ((runPipeline env world files).error = none →
      ∃ E, progressEvents (runPipeline env world files).trace = E ++ [90, 100] ∧
        ∀ p ∈ E, p ≤ 90) ∧
    ((runPipeline env world files).error ≠ none →
      ∀ p ∈ progressEvents (runPipeline env world files).trace, p ≤ 85) := by
  have hm : 1 ≤ files.length := List.length_pos.mpr hne
  have hfe : files.isEmpty = false := by simpa [List.isEmpty_iff]
  unfold runPipeline
  rw [hfe]
  simp only [Bool.false_eq_true, if_false]
  rcases hgo : goFiles env world files.length files 0
      { pref := initialPref env, used := [], manifest := [], guides := [],
        trace := [.progress 5], logs := [] } with ⟨st, err⟩
  have hev0 : progressEvents
      ({ pref := initialPref env, used := [], manifest := [], guides := [],
         trace := [.progress 5], logs := [] } : PipeState).trace = [5] := by
    simp [progressEvents]
  obtain ⟨hch, j, h0j, hjle, hbd, hcomp⟩ :=
    goFiles_events env world files.length files 0
      { pref := initialPref env, used := [], manifest := [], guides := [],
        trace := [.progress 5], logs := [] }
      (by rw [hev0]; exact List.chain'_singleton 5)
      (by rw [hev0]; intro p hp; simp at hp; rw [hp, progAt_zero _ hm])
  rw [hgo] at hch hbd hcomp
  have hst85 : ∀ p ∈ progressEvents st.trace, p ≤ 85 := by
    intro p hp
    exact (hbd p hp).trans (progAt_le_85 files.length j hm (by omega))
  cases err with
  | some e =>
    dsimp only
    refine ⟨hch, ?_, fun _ => hst85⟩
    intro h
    simp at h
  | none =>
    dsimp only
    have htr : progressEvents (st.trace ++
        [Action.progress 90, Action.writeManifest st.manifest,
         Action.zip (st.guides.map Prod.fst), Action.progress 100]) =
        progressEvents st.trace ++ [90, 100] := by
      rw [progressEvents_append]
      simp [progressEvents]
    refine ⟨?_, ?_, ?_⟩
    · rw [htr]
      refine List.Chain'.append hch ?_ ?_
      · exact List.chain'_cons.mpr ⟨by omega, List.chain'_singleton _⟩
      · intro x hx y hy
        have hx' : x ∈ progressEvents st.trace := by
          obtain ⟨hne', hxl⟩ := List.mem_getLast?_eq_getLast hx
          rw [hxl]
          exact List.getLast_mem hne'
        have hy' : (90 : Nat) = y := by simpa using hy
        rw [← hy']
        exact (hst85 x hx').trans (by omega)
    · intro _
      exact ⟨progressEvents st.trace, htr,
        fun p hp => (hst85 p hp).trans (by omega)⟩
    · intro h
      exact absurd rfl h

/-- All writes the progress callback performs on a running state: statuses
stay `running`, terminal fields are untouched, and progress values are the
clamped events in order. -/
theorem applyEvents_spec : ∀ (ps : List Nat) (s : StoredRun),
    s.status = .running →
    ((applyEvents s ps).map (·.progress) =
      ps.map fun p => max 0 (min 100 p)) ∧
    ∀ w ∈ applyEvents s ps, w.status = .running ∧ w.error = s.error ∧
      w.downloadPath = s.downloadPath := by
  intro ps
  induction ps with
  | nil => intro s _; simp [applyEvents]
  | cons p ps ih =>
    intro s hs
    have hcb : progressCallbackWrite s p =
        some { s with progress := max 0 (min 100 p) } := by
      simp [progressCallbackWrite, hs]
    obtain ⟨ih1, ih2⟩ := ih { s with progress := max 0 (min 100 p) }
      (by simpa using hs)
    constructor
    · simp only [applyEvents, hcb, List.map_cons, ih1]
    · intro w hw
      simp only [applyEvents, hcb] at hw
      rcases List.mem_cons.mp hw with h | h
      · subst h
        exact ⟨hs, rfl, rfl⟩
      · simpa using ih2 w h

/-- Membership in the `dropLast` of a cons cell. -/
theorem mem_dropLast_cons {α : Type} {w x : α} {l : List α}
    (h : w ∈ (x :: l).dropLast) : w = x ∨ w ∈ l.dropLast := by
  cases l with
  | nil => simp at h
  | cons y ys => exact List.mem_cons.mp h

/-- Claim C2, counterexample: in a plain successful one-file run, the final
`Done` progress event is written to the run state with progress 100 while
the stored status is still `running`, so "progress = 100 iff status =
completed" fails on the stored states. -/
theorem c2_counterexample :
    (⟨.running, 100, none, none⟩ : StoredRun) ∈
      processRunWrites ⟨.queued, 0, none, none⟩
        (runPipeline noLlmEnv plainWorld ["a.txt"]) ∧
    (runPipeline noLlmEnv plainWorld ["a.txt"]).error = none := by
  decide

/-- Claim C2, amended: every non-terminal write of `processRun` has status
`running` and their progress values form a non-decreasing chain; a
`completed` write stores exactly 100 and a `failed` write stores the
progress recorded at dequeue time (0 for a freshly created run, never 100);
and in a completed run the value 100 first appears at the final in-flight
`Done` write, the one immediately preceding the `completed` transition —
every earlier write stores strictly less than 100. -/
theorem c2_amended (env : PipeEnv) (world : Nat → FileCtx)
    (files : List String) (init : StoredRun)
    (hne : files ≠ []) (hq : init.status = .queued) (h0 : init.progress = 0) :
    (∀ w ∈ (processRunWrites init (runPipeline env world files)).dropLast,
      w.status = .running) ∧
    List.Chain' (· ≤ ·)
      ((processRunWrites init (runPipeline env world files)).dropLast.map
        (·.progress)) ∧
    (∀ w ∈ processRunWrites init (runPipeline env world files),
      w.status = .completed → w.progress = 100) ∧
    (∀ w ∈ processRunWrites init (runPipeline env world files),
      w.status = .failed → w.progress = 0) ∧
    ((runPipeline env world files).error = none →
      ∀ w ∈ ((processRunWrites init
          (runPipeline env world files)).dropLast).dropLast,
        w.progress < 100) := by
  obtain ⟨hch, hcompl, habort⟩ := runPipeline_events env world files hne
  have hws : processRunWrites init (runPipeline env world files) =
      (⟨.running, 0, none, none⟩ : StoredRun) ::
        applyEvents ⟨.running, 0, none, none⟩
          (progressEvents (runPipeline env world files).trace) ++
        [match (runPipeline env world files).error with
         | none => ⟨.completed, 100, none, some "guides.zip"⟩
         | some _ => ⟨.failed, max 0 init.progress,
             some PUBLIC_RUN_ERROR, none⟩] := by
    unfold processRunWrites
    rw [if_neg (by simp [hq]), h0]
    simp
  obtain ⟨hmap, hall⟩ := applyEvents_spec
    (progressEvents (runPipeline env world files).trace)
    ⟨.running, 0, none, none⟩ rfl
  have hdl : (processRunWrites init (runPipeline env world files)).dropLast =
      (⟨.running, 0, none, none⟩ : StoredRun) ::
        applyEvents ⟨.running, 0, none, none⟩
          (progressEvents (runPipeline env world files).trace) := by
    rw [hws]
    exact List.dropLast_concat ..
  refine ⟨?_, ?_, ?_, ?_, ?_⟩
  · intro w hw
    rw [hdl] at hw
    rcases List.mem_cons.mp hw with h | h
    · rw [h]
    · exact (hall w h).1
  · rw [hdl, List.map_cons, hmap]
    refine List.chain'_cons'.mpr ⟨fun y _ => Nat.zero_le y, ?_⟩
    exact List.chain'_map_of_chain' _
      (fun a b hab => max_le_max (le_refl 0) (min_le_min (le_refl 100) hab))
      hch
  · intro w hw hcw
    rw [hws] at hw
    rcases List.mem_cons.mp hw with h | h
    · rw [h] at hcw; exact absurd hcw (by simp)
    · rcases List.mem_append.mp h with h' | h'
      · exact absurd ((hall w h').1 ▸ hcw) (by rw [(hall w h').1] at hcw; simp at hcw)
      · cases herr : (runPipeline env world files).error with
        | none => rw [herr] at h'; simp at h'; rw [h']
        | some e =>
          rw [herr] at h'; simp at h'
          rw [h'] at hcw; simp at hcw
  · intro w hw hfw
    rw [hws] at hw
    rcases List.mem_cons.mp hw with h | h
    · rw [h] at hfw; simp at hfw
    · rcases List.mem_append.mp h with h' | h'
      · rw [(hall w h').1] at hfw; simp at hfw
      · cases herr : (runPipeline env world files).error with
        | none =>
          rw [herr] at h'; simp at h'
          rw [h'] at hfw; simp at hfw
        | some e =>
          rw [herr] at h'; simp at h'
          rw [h', h0]
  · intro herr w hw
    obtain ⟨E, hE, hE90⟩ := hcompl herr
    rw [hdl] at hw
    rcases mem_dropLast_cons hw with h | h
    · rw [h]; norm_num
    · have hwp : w.progress ∈
          (applyEvents (⟨.running, 0, none, none⟩ : StoredRun)
            (progressEvents (runPipeline env world files).trace)).dropLast.map
            (·.progress) := List.mem_map_of_mem _ h
      rw [List.map_dropLast, hmap, hE, List.map_append] at hwp
      rw [show (List.map (fun p => max 0 (min 100 p)) E) ++
            List.map (fun p => max 0 (min 100 p)) [90, 100] =
          ((List.map (fun p => max 0 (min 100 p)) E) ++ [max 0 (min 100 90)]) ++
            [max 0 (min 100 100)] by simp] at hwp
      rw [List.dropLast_concat] at hwp
      rcases List.mem_append.mp hwp with h' | h'
      · obtain ⟨p, hpE, hpw⟩ := List.mem_map.mp h'
        have hp90 := hE90 p hpE
        have h1 : w.progress = min 100 p := by rw [← hpw, Nat.zero_max]
        have h2 : w.progress ≤ p := h1 ▸ Nat.min_le_right 100 p
        omega
      · have h1 : w.progress = max 0 (min 100 90) := by simpa using h'
        simp at h1
        omega

/-- Witness for `c2_amended`: the non-terminal stored writes of a concrete
successful run form a non-decreasing progress chain. -/
theorem c2_amended_witness :
    List.Chain' (· ≤ ·)
      ((processRunWrites ⟨.queued, 0, none, none⟩
        (runPipeline noLlmEnv plainWorld ["b.txt"])).dropLast.map
        (·.progress)) :=
  (c2_amended noLlmEnv plainWorld ["b.txt"] ⟨.queued, 0, none, none⟩
    (by simp) rfl rfl).2.1

/-! ## Claim C7 — manifest/archive assembly -/

/-- Record a new output name in the ordered key set of the guides directory
(appending only if absent — a second write to the same name overwrites). -/
def insertName (ks : List String) (n : String) : List String :=
  if n ∈ ks then ks else ks ++ [n]

/-- Keys of the guides directory after writing the given names in order. -/
def insKeys (ns : List String) : List String :=
  ns.foldl insertName []

/-- An action of the per-file loop: never the manifest write, never the
archive creation. -/
def harmless (a : Action) : Prop :=
  (∀ es, a ≠ .writeManifest es) ∧ (∀ ns, a ≠ .zip ns)

/-- `alookup` succeeds exactly on the keys of the association list. -/
theorem alookup_isSome_iff {β : Type} (k : String) :
    ∀ gs : List (String × β),
      (alookup k gs).isSome = true ↔ k ∈ gs.map Prod.fst := by
  intro gs
  induction gs with
  | nil => simp [alookup]
  | cons kv rest ih =>
    by_cases hk : kv.1 = k
    · simp [alookup, hk]
    · simp only [alookup, if_neg hk, List.map_cons, List.mem_cons]
      rw [ih]
      constructor
      · exact Or.inr
      · rintro (h | h)
        · exact absurd h.symm hk
        · exact h

/-- Writing one file into the guides directory inserts its name into the
ordered key set. -/
theorem upsertGuide_keys (gs : List (String × String)) (n h : String) :
    (upsertGuide gs n h).map Prod.fst = insertName (gs.map Prod.fst) n := by
  unfold upsertGuide insertName
  by_cases hmem : n ∈ gs.map Prod.fst
  · rw [if_pos ((alookup_isSome_iff n gs).mpr hmem), if_pos hmem]
    rw [List.map_map]
    apply List.map_congr_left
    intro kv _
    by_cases hk : kv.1 = n
    · simp [hk]
    · simp [hk]
  · rw [if_neg (by rw [alookup_isSome_iff n gs]; simpa using hmem),
      if_neg hmem]
    simp

/-- Folding distinct names through `insertName` keeps them all in order. -/
theorem insKeys_nodup (ns : List String) (h : ns.Nodup) : insKeys ns = ns := by
  suffices hgen : ∀ (ms : List String) (ks : List String),
      ms.Nodup → (∀ n ∈ ms, n ∉ ks) → ms.foldl insertName ks = ks ++ ms by
    simpa using hgen ns [] h (by simp)
  intro ms
  induction ms with
  | nil => intro ks _ _; simp
  | cons n rest ih =>
    intro ks hnd hdis
    have hn : n ∉ ks := hdis n (by simp)
    simp only [List.foldl_cons]
    rw [show insertName ks n = ks ++ [n] from if_neg hn]
    rw [ih (ks ++ [n]) (List.nodup_cons.mp hnd).2]
    · simp
    · intro x hx
      simp only [List.mem_append, List.mem_singleton]
      rintro (h' | h')
      · exact hdis x (by simp [hx]) h'
      · exact (List.nodup_cons.mp hnd).1 (h' ▸ hx)

/-- Every name `makeUniqueOutputHtmlName` hands out ends in `.html`. -/
theorem makeUnique_html (b : String) (used : List (String × Nat)) :
    ∃ s, (makeUniqueOutputHtmlName b used).1 = s ++ ".html" := by
  unfold makeUniqueOutputHtmlName
  set safeBase := if b = "" then "file" else
    let t := strTrim b
    if t = "" then "file" else t with hsb
  by_cases hc : (alookup (safeBase ++ ".html") used).getD 0 = 0
  · rw [if_pos hc]
    exact ⟨safeBase, rfl⟩
  · rw [if_neg hc]
    refine ⟨safeBase ++ " (" ++
      natToString ((alookup (safeBase ++ ".html") used).getD 0 + 1) ++ ")", ?_⟩
    rw [String.append_assoc]
    rfl

/-- No `.html` output name is the manifest file name. -/
theorem html_ne_manifest (s : String) : s ++ ".html" ≠ "manifest.json" := by
  intro h
  have hd := congrArg String.data h
  rw [String.data_append] at hd
  have hlen := congrArg List.length hd
  rw [List.length_append] at hlen
  have h5 : (".html".data).length = 5 := by decide
  have h13 : ("manifest.json".data).length = 13 := by decide
  rw [h5, h13] at hlen
  have h8 : s.data.length = 8 := by omega
  have hdrop := congrArg (List.drop 8) hd
  rw [List.drop_left' h8] at hdrop
  have : (".html".data) = ("manifest.json".data).drop 8 := hdrop
  simp at this

/-- Shape of a per-file step that did not abort: one manifest record for the
file, one guides write under the same freshly assigned name, and only
harmless trace actions. -/
theorem processFile_ok (env : PipeEnv) (total : Nat) (ctx : FileCtx) (i : Nat)
    (rel : String) (st st' : PipeState)
    (h : processFile env total ctx i rel st = (st', none)) :
    ∃ html tb entry,
      entry.sourcePath = rel ∧
      entry.outputFile = (makeUniqueOutputHtmlName (pathBaseNoExt rel) st.used).1 ∧
      st'.manifest = st.manifest ++ [entry] ∧
      st'.guides = upsertGuide st.guides
        (makeUniqueOutputHtmlName (pathBaseNoExt rel) st.used).1 html ∧
      st'.trace = st.trace ++ tb ∧
      (∀ a ∈ tb, harmless a) := by
  unfold processFile at h
  cases hsj : safeJoin env.inputDir rel with
  | error e =>
    rw [hsj] at h
    exact absurd (congrArg Prod.snd h) (by simp)
  | ok inputPath =>
    rw [hsj] at h
    cases hf : ctx.fault with
    | some msg =>
      rw [hf] at h
      dsimp only at h
      split at h
      · exact absurd (congrArg Prod.snd h) (by simp)
      · have hst := congrArg Prod.fst h
        dsimp only at hst
        refine ⟨"<h2>Conversion failed</h2>\n<p><strong>File:</strong> " ++
            escapeHtml rel ++ "</p>\n<p><strong>Error:</strong> " ++
            escapeHtml msg ++ "</p>",
          [.progress (progAt total i),
           .writeHtml (makeUniqueOutputHtmlName (pathBaseNoExt rel) st.used).1,
           .progress (progAt total (i + 1))],
          ⟨rel, (makeUniqueOutputHtmlName (pathBaseNoExt rel) st.used).1,
           pathBasename rel, false, some msg⟩,
          rfl, rfl, ?_, ?_, ?_, ?_⟩
        · rw [← hst]
        · rw [← hst]
        · rw [← hst]; simp
        · intro a ha
          simp only [List.mem_cons, List.not_mem_nil, or_false] at ha
          rcases ha with rfl | rfl | rfl <;>
            exact ⟨fun es => by simp, fun ns => by simp⟩
    | none =>
      rw [hf] at h
      dsimp only at h
      have hst := congrArg Prod.fst h
      dsimp only at hst
      refine ⟨(rewriteToHtmlFragment (rewriteEnvOf env) env.mdRender
          ctx.rewrite st.pref (pathBasename rel) ctx.md).html,
        [.progress (progAt total i), .readInput inputPath,
         .writeHtml (makeUniqueOutputHtmlName (pathBaseNoExt rel) st.used).1,
         .progress (progAt total (i + 1))],
        ⟨rel, (makeUniqueOutputHtmlName (pathBaseNoExt rel) st.used).1,
         pathBasename rel, true, none⟩,
        rfl, rfl, ?_, ?_, ?_, ?_⟩
      · rw [← hst]
      · rw [← hst]
      · rw [← hst]; simp
      · intro a ha
        simp only [List.mem_cons, List.not_mem_nil, or_false] at ha
        rcases ha with rfl | rfl | rfl | rfl <;>
          exact ⟨fun es => by simp, fun ns => by simp⟩

/-- The guides-directory keys are among the written names. -/
theorem insKeys_subset (ns : List String) : ∀ x ∈ insKeys ns, x ∈ ns := by
  suffices hgen : ∀ (ms ks : List String) (x : String),
      x ∈ ms.foldl insertName ks → x ∈ ks ∨ x ∈ ms by
    intro x hx
    rcases hgen ns [] x hx with h | h
    · simp at h
    · exact h
  intro ms
  induction ms with
  | nil => intro ks x hx; exact Or.inl hx
  | cons n rest ih =>
    intro ks x hx
    rcases ih (insertName ks n) x hx with h | h
    · unfold insertName at h
      split at h
      · exact Or.inl h
      · rcases List.mem_append.mp h with h' | h'
        · exact Or.inl h'
        · exact Or.inr (by simp at h'; simp [h'])
    · exact Or.inr (by simp [h])

/-- Loop invariants of `goFiles` on a run that did not abort: one manifest
record per processed file in order, guides keys tracking the inserted output
names, `.html`-suffixed names throughout, and only harmless trace
actions. -/
theorem goFiles_c7 (env : PipeEnv) (world : Nat → FileCtx) (total : Nat) :
    ∀ (files : List String) (i : Nat) (st st' : PipeState),
      goFiles env world total files i st = (st', none) →
      (st'.manifest.map (·.sourcePath) =
        st.manifest.map (·.sourcePath) ++ files) ∧
      (st.guides.map Prod.fst = insKeys (st.manifest.map (·.outputFile)) →
        st'.guides.map Prod.fst = insKeys (st'.manifest.map (·.outputFile))) ∧
      ((∀ e ∈ st.manifest, ∃ s, e.outputFile = s ++ ".html") →
        ∀ e ∈ st'.manifest, ∃ s, e.outputFile = s ++ ".html") ∧
      ((∀ a ∈ st.trace, harmless a) → ∀ a ∈ st'.trace, harmless a) := by
  intro files
  induction files with
  | nil =>
    intro i st st' h
    simp only [goFiles] at h
    injection h with h1 _
    subst h1
    exact ⟨by simp, fun h => h, fun h => h, fun h => h⟩
  | cons rel rest ih =>
    intro i st st' h
    rcases hpf : processFile env total (world i) i rel st with ⟨stm, err⟩
    simp only [goFiles, hpf] at h
    cases err with
    | some e => exact absurd (congrArg Prod.snd h) (by simp)
    | none =>
      obtain ⟨html, tb, entry, hsrc, hout, hman, hgui, htr, htb⟩ :=
        processFile_ok env total (world i) i rel st stm hpf
      obtain ⟨ih1, ih2, ih3, ih4⟩ := ih (i + 1) stm st' h
      refine ⟨?_, ?_, ?_, ?_⟩
      · rw [ih1, hman]
        simp [hsrc]
      · intro hinv
        apply ih2
        rw [hgui, upsertGuide_keys, hinv, hman, List.map_append,
          List.map_singleton, hout]
        unfold insKeys
        rw [List.foldl_append]
        rfl
      · intro hh
        apply ih3
        intro e he
        rw [hman] at he
        rcases List.mem_append.mp he with h' | h'
        · exact hh e h'
        · have : e = entry := by simpa using h'
          rw [this, hout]
          exact makeUnique_html (pathBaseNoExt rel) st.used
      · intro hh
        apply ih4
        intro a ha
        rw [htr] at ha
        rcases List.mem_append.mp ha with h' | h'
        · exact hh a h'
        · exact htb a h'

/-- Claim C7, counterexample: a run with three input files whose assigned
output names collide (`a (2)`, `a`, `a`) completes with three manifest
records but only two files in the guides directory (the third write
overwrote the first), so the archive does not contain one HTML output per
input file. -/
theorem c7_counterexample :
    (runPipeline noLlmEnv plainWorld ["a (2).txt", "a.txt", "a.md"]).error =
      none ∧
    (runPipeline noLlmEnv plainWorld
      ["a (2).txt", "a.txt", "a.md"]).manifest.length = 3 ∧
    (runPipeline noLlmEnv plainWorld
      ["a (2).txt", "a.txt", "a.md"]).guides.length = 2 := by
  decide

/-- Claim C7, amended: in every run that completes, the manifest has exactly
one record per discovered input file in discovery order; provided the
assigned output names are pairwise distinct, the guides directory (and hence
the archive) holds exactly one HTML file per input, keyed by the manifest's
output names; every archived name ends in `.html` and is never
`manifest.json`; and the trace ends with the 90% event, the manifest write,
the archive creation and the 100% event, in that order, with no manifest
write or archiving earlier. -/
theorem c7_amended (env : PipeEnv) (world : Nat → FileCtx)
    (files : List String) (hne : files ≠ [])
    (hsucc : (runPipeline env world files).error = none) :
    ((runPipeline env world files).manifest.map (·.sourcePath) = files) ∧
    (((runPipeline env world files).manifest.map (·.outputFile)).Nodup →
      (runPipeline env world files).guides.map Prod.fst =
        (runPipeline env world files).manifest.map (·.outputFile)) ∧
    (∀ e ∈ (runPipeline env world files).manifest,
      ∃ s, e.outputFile = s ++ ".html") ∧
    (∀ n ∈ (runPipeline env world files).guides.map Prod.fst,
      n ≠ "manifest.json") ∧
    ∃ pre, (runPipeline env world files).trace = pre ++
        [.progress 90, .writeManifest (runPipeline env world files).manifest,
         .zip ((runPipeline env world files).guides.map Prod.fst),
         .progress 100] ∧
      ∀ a ∈ pre, harmless a := by
  have hfe : files.isEmpty = false := by simpa [List.isEmpty_iff]
  unfold runPipeline at hsucc ⊢
  rw [hfe] at hsucc ⊢
  simp only [Bool.false_eq_true, if_false] at hsucc ⊢
  rcases hgo : goFiles env world files.length files 0
      { pref := initialPref env, used := [], manifest := [], guides := [],
        trace := [.progress 5], logs := [] } with ⟨st, err⟩
  cases err with
  | some e =>
    rw [hgo] at hsucc
    exact Option.noConfusion (show some e = none from hsucc)
  | none =>
    dsimp only
    obtain ⟨h1, h2, h3, h4⟩ := goFiles_c7 env world files.length files 0
      { pref := initialPref env, used := [], manifest := [], guides := [],
        trace := [.progress 5], logs := [] } st hgo
    have hkeys : st.guides.map Prod.fst =
        insKeys (st.manifest.map (·.outputFile)) := h2 (by simp [insKeys])
    have hhtml : ∀ e ∈ st.manifest, ∃ s, e.outputFile = s ++ ".html" :=
      h3 (by simp)
    refine ⟨by simpa using h1, ?_, hhtml, ?_, st.trace, rfl, ?_⟩
    · intro hnd
      rw [hkeys, insKeys_nodup _ hnd]
    · intro n hn
      rw [hkeys] at hn
      have hn' := insKeys_subset _ n hn
      obtain ⟨e, he, hee⟩ := List.mem_map.mp hn'
      obtain ⟨s, hs⟩ := hhtml e he
      rw [← hee, hs]
      exact html_ne_manifest s
    · apply h4
      intro a ha
      simp only [List.mem_cons, List.not_mem_nil, or_false] at ha
      subst ha
      exact ⟨fun es => by simp, fun ns => by simp⟩

/-- Witness for `c7_amended` on a concrete two-file run. -/
theorem c7_amended_witness :
    (runPipeline noLlmEnv plainWorld ["a.txt", "b.txt"]).manifest.map
      (·.sourcePath) = ["a.txt", "b.txt"] :=
  (c7_amended noLlmEnv plainWorld ["a.txt", "b.txt"] (by simp) (by decide)).1

/-! ## Claim C10 — `safeJoin` path containment -/

/-- Normalized segment lists contain no empty, `.` or `..` segments. -/
theorem normSegs_good (segs : List String) :
    ∀ s ∈ normSegs segs, s ≠ "" ∧ s ≠ "." ∧ s ≠ ".." := by
  suffices hgen : ∀ (ms : List String) (acc : List String),
      (∀ s ∈ acc, s ≠ "" ∧ s ≠ "." ∧ s ≠ "..") →
      ∀ s ∈ ms.foldl normSegsStep acc, s ≠ "" ∧ s ≠ "." ∧ s ≠ ".." by
    exact hgen segs [] (by simp)
  intro ms
  induction ms with
  | nil => intro acc hacc; exact hacc
  | cons seg rest ih =>
    intro acc hacc
    apply ih
    intro s hs
    unfold normSegsStep at hs
    split at hs
    · exact hacc s hs
    · split at hs
      · exact hacc s ((List.dropLast_sublist _).subset hs)
      · rcases List.mem_append.mp hs with h' | h'
        · exact hacc s h'
        · have hseq : s = seg := by simpa using h'
          subst hseq
          rename_i h1 h2
          exact ⟨fun h => h1 (Or.inl h), fun h => h1 (Or.inr h), h2⟩

/-- Any input read recorded by one file's processing either existed in the
incoming trace or came from a successful `safeJoin` of that file's relative
path against the input directory. -/
theorem processFile_reads (env : PipeEnv) (total : Nat) (ctx : FileCtx)
    (i : Nat) (rel : String) (st : PipeState) :
    ∀ path, Action.readInput path ∈ (processFile env total ctx i rel st).1.trace →
      Action.readInput path ∈ st.trace ∨
        safeJoin env.inputDir rel = .ok path := by
  intro path hp
  unfold processFile at hp
  cases hsj : safeJoin env.inputDir rel with
  | error e =>
    rw [hsj] at hp
    exact Or.inl hp
  | ok inputPath =>
    rw [hsj] at hp
    cases hf : ctx.fault with
    | some msg =>
      rw [hf] at hp
      dsimp only at hp
      split at hp <;> dsimp only at hp <;>
        rcases List.mem_append.mp hp with h' | h'
      · exact (List.mem_append.mp h').elim Or.inl (fun hb => by simp at hb)
      · simp at h'
      · exact (List.mem_append.mp h').elim Or.inl (fun hb => by simp at hb)
      · simp at h'
    | none =>
      rw [hf] at hp
      dsimp only at hp
      rcases List.mem_append.mp hp with h' | h'
      · exact (List.mem_append.mp h').elim Or.inl (fun hb => by simp at hb)
      · simp only [List.mem_cons, List.not_mem_nil, or_false] at h'
        rcases h' with h'' | h'' | h''
        · have hpath : path = inputPath := by injection h''
          subst hpath
          exact Or.inr rfl
        · exact absurd h'' (by simp)
        · exact absurd h'' (by simp)

/-- Every input read of the per-run loop satisfies any property enjoyed by
successful `safeJoin` results and by the incoming trace's reads. -/
theorem goFiles_reads (env : PipeEnv) (world : Nat → FileCtx) (total : Nat)
    (P : String → Prop)
    (hsj : ∀ rel path, safeJoin env.inputDir rel = .ok path → P path) :
    ∀ (files : List String) (i : Nat) (st : PipeState),
      (∀ path, Action.readInput path ∈ st.trace → P path) →
      ∀ path, Action.readInput path ∈ (goFiles env world total files i st).1.trace →
        P path := by
  intro files
  induction files with
  | nil => intro i st hbase; exact hbase
  | cons rel rest ih =>
    intro i st hbase path hp
    rcases hpf : processFile env total (world i) i rel st with ⟨st', err⟩
    have hst' : ∀ q, Action.readInput q ∈ st'.trace → P q := by
      intro q hq
      have := processFile_reads env total (world i) i rel st q (by rw [hpf]; exact hq)
      rcases this with h | h
      · exact hbase q h
      · exact hsj rel q h
    simp only [goFiles, hpf] at hp
    cases err with
    | some e => exact hst' path hp
    | none => exact ih (i + 1) st' hst' path hp

/-- Claim C10: for every base directory and relative path, a successful
`safeJoin` returns an absolute, fully normalized path (no empty, `.` or
`..` segments) that extends the resolved base directory plus a separator —
it is strictly inside the base; and consequently every input-file path the
pipeline reads stays under the run's upload input directory. -/
theorem c10_safejoin_containment :
    (∀ base rel p, strStartsWith base "/" = true → safeJoin base rel = .ok p →
      strStartsWith p (resolveAbs base ++ "/") = true ∧
      (∃ t, p = "/" ++ t) ∧
      (∃ segs, p = "/" ++ strJoin segs ∧
        ∀ s ∈ segs, s ≠ "" ∧ s ≠ "." ∧ s ≠ "..")) ∧
    (∀ (env : PipeEnv) (world : Nat → FileCtx) (files : List String)
        (path : String), strStartsWith env.inputDir "/" = true →
      Action.readInput path ∈ (runPipeline env world files).trace →
      strStartsWith path (resolveAbs env.inputDir ++ "/") = true) := by
  have part1 : ∀ base rel p, strStartsWith base "/" = true →
      safeJoin base rel = .ok p →
      strStartsWith p (resolveAbs base ++ "/") = true ∧
      (∃ t, p = "/" ++ t) ∧
      (∃ segs, p = "/" ++ strJoin segs ∧
        ∀ s ∈ segs, s ≠ "" ∧ s ≠ "." ∧ s ≠ "..") := by
    intro base rel p _ h
    unfold safeJoin at h
    dsimp only at h
    split at h
    all_goals
      split at h
      · rename_i hguard
        injection h with h'
        subst h'
        exact ⟨hguard, ⟨_, rfl⟩, resolveSegs _, rfl, normSegs_good _⟩
      · exact Except.noConfusion h
  refine ⟨part1, ?_⟩
  intro env world files path habs hmem
  unfold runPipeline at hmem
  split at hmem
  · simp at hmem
  · dsimp only at hmem
    rcases hgo : goFiles env world files.length files 0
        { pref := initialPref env, used := [], manifest := [], guides := [],
          trace := [.progress 5], logs := [] } with ⟨st, err⟩
    rw [hgo] at hmem
    have hread : Action.readInput path ∈ st.trace →
        strStartsWith path (resolveAbs env.inputDir ++ "/") = true := by
      intro hin
      refine goFiles_reads env world files.length
        (fun q => strStartsWith q (resolveAbs env.inputDir ++ "/") = true)
        (fun rel q hq => (part1 env.inputDir rel q habs hq).1)
        files 0 _ ?_ path (by rw [hgo]; exact hin)
      intro q hq
      simp at hq
    cases err with
    | some e => exact hread hmem
    | none =>
      dsimp only at hmem
      rcases List.mem_append.mp hmem with h' | h'
      · exact hread h'
      · simp at h'

/-- Witness for `c10_safejoin_containment` at a concrete base and relative
path. -/
theorem c10_witness :
    strStartsWith "/data/uploads/u9/input/docs/readme.txt"
      (resolveAbs "/data/uploads/u9/input" ++ "/") = true :=
  (c10_safejoin_containment.1 "/data/uploads/u9/input" "docs/readme.txt"
    "/data/uploads/u9/input/docs/readme.txt" (by decide) (by decide)).1

end Conv
